import Mathlib

/-!
Verification of the HuskieRobotics log-analyzer core against its
natural-language specification.

The Python sources (src/Log.py, src/StructDecoder.py, src/analysis.py,
src/datalog.py) are shallowly embedded below:

* Python `float` timestamps and numeric values are modelled as `Rat`.
  The code only compares, inserts and copies timestamps (no arithmetic
  that could overflow or round), so the rationals are a faithful model
  of every comparison the claims exercise.
* Python `bytes` are modelled as `List Nat` (each entry < 256 in every
  use below).
* Python dictionaries (insertion ordered) are modelled as association
  lists with `getAssoc` / `setAssoc`; `setAssoc` updates in place and
  appends new keys at the end, matching dict insertion-order semantics.
* Python exceptions are modelled with `Option` / `Except`: `none`
  (resp. `.error`) marks a raised exception at the point the Python
  code would raise.
-/

namespace LogAnalyzer

/-- Association-list lookup, modelling Python `dict.get` /
`key in dict`. -/
def getAssoc {κ α : Type} [DecidableEq κ] (k : κ) : List (κ × α) → Option α
| [] => none
| (k', v) :: rest => if k' = k then some v else getAssoc k rest

/-- Association-list update, modelling Python `dict[key] = value`:
replaces an existing binding in place, otherwise appends at the end
(dict insertion order). -/
def setAssoc {κ α : Type} [DecidableEq κ] (k : κ) (v : α) : List (κ × α) → List (κ × α)
| [] => [(k, v)]
| (k', v') :: rest => if k' = k then (k, v) :: rest else (k', v') :: setAssoc k v rest

/-- Python list slicing `l[a:b]` with non-negative clamping semantics
(negative indices count from the end, out-of-range indices clamp). -/
def pySlice {α : Type} (l : List α) (a b : Int) : List α :=
  let n : Int := l.length
  let norm : Int → Nat := fun i => (if i < 0 then max (n + i) 0 else min i n).toNat
  let a' := norm a
  let b' := norm b
  (l.take b').drop a'

/-- Insert into a set modelled as a duplicate-free list
(Python `set.add`). -/
def setInsert (k : String) (s : List String) : List String :=
  if k ∈ s then s else k :: s

/-- Python `str.split(sep)` over character lists (structural recursion
on a `fuel` bound so that concrete schema strings evaluate inside the
kernel): scan for the leftmost separator occurrence, cut, continue
after it.  `cur` holds the reversed characters of the current piece.
Every step consumes at least one character for a non-empty separator,
so fuel equal to the input length (as `splitOnL` passes) never runs
out. -/
def splitOnAuxL (sep : List Char) : Nat → List Char → List Char → List (List Char)
| _, [], cur => [cur.reverse]
| 0, l, cur => [cur.reverse ++ l]
| fuel + 1, c :: rest, cur =>
  if sep.isPrefixOf (c :: rest) ∧ sep ≠ [] then
    cur.reverse :: splitOnAuxL sep fuel ((c :: rest).drop sep.length) []
  else splitOnAuxL sep fuel rest (c :: cur)

/-- Python `str.split(sep)` for a non-empty separator. -/
def splitOnL (sep l : List Char) : List (List Char) :=
  splitOnAuxL sep l.length l []

/-- Python `str.strip()`. -/
def trimL (l : List Char) : List Char :=
  ((l.dropWhile Char.isWhitespace).reverse.dropWhile Char.isWhitespace).reverse

/-- Python `"".join(pieces)`. -/
def joinL (ls : List (List Char)) : List Char :=
  ls.foldl (· ++ ·) []

/-- Numeric value of a list of decimal digit characters. -/
def digitsToNat (l : List Char) : Nat :=
  l.foldl (fun acc c => acc * 10 + (c.toNat - 48)) 0

/-- Python `int(s)` for decimal strings: strip whitespace, optional
sign, then at least one digit; `none` models the `ValueError`
otherwise. -/
def pyIntParse (l : List Char) : Option Int :=
  match trimL l with
  | '-' :: rest =>
    if rest ≠ [] ∧ rest.all Char.isDigit then some (-(digitsToNat rest : Int)) else none
  | '+' :: rest =>
    if rest ≠ [] ∧ rest.all Char.isDigit then some (digitsToNat rest : Int) else none
  | l' => if l' ≠ [] ∧ l'.all Char.isDigit then some (digitsToNat l' : Int) else none

-- === Core types (src/Log.py) ===

/-- `LoggableType` (Log.py): the closed variant of field types. -/
inductive LoggableType
| raw
| boolean
| number
| string
| booleanArray
| numberArray
| stringArray
| empty
deriving DecidableEq, Repr

/-- A generic stored value; one constructor per Python runtime type a
field's `values` list can hold. -/
inductive LogValue
| raw (bs : List Nat)
| bool (b : Bool)
| num (q : Rat)
| str (s : String)
| boolArr (bs : List Bool)
| numArr (qs : List Rat)
| strArr (ss : List String)
deriving DecidableEq, Repr

/-- `LogValueSet` (Log.py): parallel timestamp / value columns. -/
structure LogValueSet where
  timestamps : List Rat := []
  values : List LogValue := []
deriving DecidableEq, Repr

/-- `LogField` (Log.py).  The `get_range_cache` attribute is a pure
performance cache never read by any code modelled here and is omitted. -/
structure LogField where
  type : LoggableType
  data : LogValueSet := {}
  structured_type : Option String := none
  wpilib_type : Option String := none
  metadata_string : String := ""
  type_warning : Bool := false
  striping_reference : Bool := false
deriving DecidableEq, Repr

namespace LogField

/-- Constructor `LogField(log_type)`. -/
def create (t : LoggableType) : LogField := { type := t }

/-- The insertion-point search loop of `LogField._insert_value`:
the first index whose timestamp is strictly greater than `t`,
or the length of the list if there is none. -/
def insertIndex (t : Rat) : List Rat → Nat
| [] => 0
| x :: xs => if x > t then 0 else insertIndex t xs + 1

/-- `LogField._insert_value`: insert the sample at the index returned
by the search loop, in both parallel columns. -/
def insert_value (t : Rat) (v : LogValue) (f : LogField) : LogField :=
  let i := insertIndex t f.data.timestamps
  { f with data := { timestamps := f.data.timestamps.insertIdx i t,
                     values := f.data.values.insertIdx i v } }

/-- `LogField.put_raw`. -/
def put_raw (t : Rat) (v : List Nat) (f : LogField) : LogField :=
  if f.type ≠ LoggableType.raw then { f with type_warning := true }
  else f.insert_value t (LogValue.raw v)

/-- `LogField.put_boolean`. -/
def put_boolean (t : Rat) (v : Bool) (f : LogField) : LogField :=
  if f.type ≠ LoggableType.boolean then { f with type_warning := true }
  else f.insert_value t (LogValue.bool v)

/-- `LogField.put_number`. -/
def put_number (t : Rat) (v : Rat) (f : LogField) : LogField :=
  if f.type ≠ LoggableType.number then { f with type_warning := true }
  else f.insert_value t (LogValue.num v)

/-- `LogField.put_string`. -/
def put_string (t : Rat) (v : String) (f : LogField) : LogField :=
  if f.type ≠ LoggableType.string then { f with type_warning := true }
  else f.insert_value t (LogValue.str v)

/-- `LogField.put_boolean_array`. -/
def put_boolean_array (t : Rat) (v : List Bool) (f : LogField) : LogField :=
  if f.type ≠ LoggableType.booleanArray then { f with type_warning := true }
  else f.insert_value t (LogValue.boolArr v)

/-- `LogField.put_number_array`. -/
def put_number_array (t : Rat) (v : List Rat) (f : LogField) : LogField :=
  if f.type ≠ LoggableType.numberArray then { f with type_warning := true }
  else f.insert_value t (LogValue.numArr v)

/-- `LogField.put_string_array`. -/
def put_string_array (t : Rat) (v : List String) (f : LogField) : LogField :=
  if f.type ≠ LoggableType.stringArray then { f with type_warning := true }
  else f.insert_value t (LogValue.strArr v)

/-- The scan loop of `LogField.get_range`: keep every indexed sample
whose timestamp satisfies `start <= timestamp <= end` (the source line
`if start <= timestamp <= end`), in stored order.  The parallel lists
are walked together exactly as the Python `enumerate` loop pairs
`timestamp` with `values[i]`. -/
def getRangeAux (a b : Rat) : List Rat → List LogValue → List Rat × List LogValue
| [], _ => ([], [])
| _ :: _, [] => ([], [])
| t :: ts, v :: vs =>
  let rest := getRangeAux a b ts vs
  if a ≤ t ∧ t ≤ b then (t :: rest.1, v :: rest.2) else rest

/-- `LogField.get_range` (uuid / start_offset caching parameters are
unused by the simplified source body and omitted). -/
def get_range (a b : Rat) (f : LogField) : LogValueSet :=
  let r := getRangeAux a b f.data.timestamps f.data.values
  { timestamps := r.1, values := r.2 }

/-- The index-advancing `while` loop of `LogField.clear_before_time`:
counts how many leading elements are dropped.  The loop advances `i`
while `timestamps[i + 1] < clear_timestamp` (the source's extra
`len >= 2` conjunct is implied by `i + 1 < len`). -/
def clearDropCount (t : Rat) : List Rat → Nat
| _ :: b :: rest => if b < t then clearDropCount t (b :: rest) + 1 else 0
| _ => 0

/-- `LogField.clear_before_time`: drop the counted prefix from both
columns, toggle `striping_reference` once per dropped element, then
clamp the first retained timestamp up to `clear_timestamp` if it is
still smaller. -/
def clear_before_time (t : Rat) (f : LogField) : LogField :=
  let k := clearDropCount t f.data.timestamps
  let ts := f.data.timestamps.drop k
  let vs := f.data.values.drop k
  let ts' := match ts with
    | [] => []
    | x :: rest => if x < t then t :: rest else x :: rest
  { f with data := { timestamps := ts', values := vs },
           striping_reference := xor f.striping_reference (k % 2 = 1) }

end LogField

-- === Generic Python value trees ===

/-- A generic Python runtime value, as produced by `json.loads`,
`msgpack.unpackb` and `StructDecoder.decode`, and consumed by
`Log._put_unknown_struct`.  `floatNonfinite` stands for the IEEE
infinities and NaNs a float decode can produce; they are outside the
rational model and no claim exercises them. -/
inductive PyValue
| noneV
| boolV (b : Bool)
| intV (n : Int)
| floatV (q : Rat)
| floatNonfinite
| strV (s : String)
| bytesV (bs : List Nat)
| listV (xs : List PyValue)
| dictV (kvs : List (String × PyValue))
deriving Repr

mutual

/-- A size measure on value trees, used as the structural fuel of the
expander below: every child value is strictly smaller. -/
def PyValue.size : PyValue → Nat
| PyValue.listV xs => 1 + PyValue.sizeList xs
| PyValue.dictV kvs => 1 + PyValue.sizeDict kvs
| _ => 1

/-- Size of a list of values. -/
def PyValue.sizeList : List PyValue → Nat
| [] => 1
| x :: rest => 1 + x.size + PyValue.sizeList rest

/-- Size of the entry list of a dict value. -/
def PyValue.sizeDict : List (String × PyValue) → Nat
| [] => 1
| kv :: rest => 1 + kv.2.size + PyValue.sizeDict rest

end

-- === StructDecoder (src/StructDecoder.py) ===

/-- The members of the `ValueType` enum. -/
inductive ValueType
| bool | char | int8 | int16 | int32 | int64
| uint8 | uint16 | uint32 | uint64
| float | float32 | double | float64
deriving DecidableEq, Repr

/-- `VALID_TYPE_STRINGS` (the enum values, in declaration order). -/
def VALID_TYPE_STRINGS : List String :=
  [ "bool", "char", "int8", "int16", "int32", "int64",
    "uint8", "uint16", "uint32", "uint64",
    "float", "float32", "double", "float64" ]

/-- `ValueType(s)`: `some` for a valid type string, `none` models the
`ValueError` Python raises otherwise. -/
def valueTypeOfString (s : String) : Option ValueType :=
  if s = "bool" then some ValueType.bool
  else if s = "char" then some ValueType.char
  else if s = "int8" then some ValueType.int8
  else if s = "int16" then some ValueType.int16
  else if s = "int32" then some ValueType.int32
  else if s = "int64" then some ValueType.int64
  else if s = "uint8" then some ValueType.uint8
  else if s = "uint16" then some ValueType.uint16
  else if s = "uint32" then some ValueType.uint32
  else if s = "uint64" then some ValueType.uint64
  else if s = "float" then some ValueType.float
  else if s = "float32" then some ValueType.float32
  else if s = "double" then some ValueType.double
  else if s = "float64" then some ValueType.float64
  else none

/-- Membership in `BITFIELD_VALID_TYPES`. -/
def isBitfieldValid : ValueType → Bool
| ValueType.bool => true
| ValueType.int8 => true
| ValueType.int16 => true
| ValueType.int32 => true
| ValueType.int64 => true
| ValueType.uint8 => true
| ValueType.uint16 => true
| ValueType.uint32 => true
| ValueType.uint64 => true
| _ => false

/-- `VALUE_TYPE_MAX_BITS`. -/
def VALUE_TYPE_MAX_BITS : ValueType → Nat
| ValueType.bool => 8
| ValueType.char => 8
| ValueType.int8 => 8
| ValueType.int16 => 16
| ValueType.int32 => 32
| ValueType.int64 => 64
| ValueType.uint8 => 8
| ValueType.uint16 => 16
| ValueType.uint32 => 32
| ValueType.uint64 => 64
| ValueType.float => 32
| ValueType.float32 => 32
| ValueType.double => 64
| ValueType.float64 => 64

/-- `ValueSchema` (StructDecoder.py).  The `type` field keeps the raw
type token, which is a primitive iff it is in `VALID_TYPE_STRINGS`,
exactly as the Python object stores either a `ValueType` or a plain
string.  Widths parsed by Python `int()` are kept as `Int`. -/
structure ValueSchema where
  name : String
  type : String
  enum : Option (List (Int × String)) := none
  bitfield_width : Option Int := none
  array_length : Option Int := none
  bit_range : Int × Int := (0, 0)
deriving DecidableEq, Repr

/-- `Schema` (StructDecoder.py). -/
structure Schema where
  length : Int
  value_schemas : List ValueSchema
deriving DecidableEq, Repr

/-- `StructDecoder` state: the raw schema strings and the compiled
schemas, both in insertion order. -/
structure StructDecoder where
  schema_strings : List (String × String) := []
  schemas : List (String × Schema) := []
deriving DecidableEq, Repr

/-- The opening-brace character (written by code point to keep braces
out of string and character literals). -/
def lbrace : Char := Char.ofNat 123

/-- The closing-brace character. -/
def rbrace : Char := Char.ofNat 125

/-- Python `str.index(c)`: index of the first occurrence, `none` models
the `ValueError` when absent. -/
def charIndex (c : Char) : List Char → Option Nat
| [] => none
| x :: xs => if x = c then some 0 else (charIndex c xs).map (· + 1)

/-- Python `str.isdigit()` (ASCII digits; the schemas this code meets
are ASCII). -/
def isDigitsL (l : List Char) : Bool :=
  decide (l ≠ []) && l.all Char.isDigit

namespace StructDecoder

/-- The body of the enum-constant loop of `_compile_schema`: split the
pair on `=`; when the result is exactly `[NAME, RHS]` and `RHS` passes
`str.isdigit()`, record `int(RHS) -> NAME`, otherwise ignore the pair. -/
def enumPairStep (m : List (Int × String)) (p : List Char) : List (Int × String) :=
  match splitOnL ['='] p with
  | [nm, rhs] => if isDigitsL rhs then setAssoc ((digitsToNat rhs : Nat) : Int) (String.mk nm) m else m
  | _ => m

/-- The enum-constant loop of `_compile_schema` over the comma-split,
space-stripped body. -/
def parseEnumPairs (pairs : List (List Char)) : List (Int × String) :=
  pairs.foldl enumPairStep []

/-- Outcome of parsing one declaration after its type token has been
isolated (everything past the dependency check in `_compile_schema`).
`excAfter` models an exception (a failing `int()`), `skip` the
`continue` on an invalid bitfield. -/
inductive DeclRest
| excAfter
| skip
| ok (vs : ValueSchema)
deriving Repr

/-- Outcome of parsing one declaration string.  `excBefore` models an
exception raised before the dependency check (`str.index` on a missing
brace, `pop(0)` on an empty token list).  Parsing is independent of the
compiled-schema map; only the dependency check between the two phases
consults it. -/
inductive DeclParse
| excBefore
| withType (tok : String) (rest : DeclRest)
deriving Repr

/-- The part of the declaration parse that follows the dependency
check: bitfield suffix `name:width`, array suffix `name[len]`, or a
plain name. -/
def parseTail (tok : String) (enumData : Option (List (Int × String))) (nameStr : List Char) : DeclRest :=
  if nameStr.contains ':' then
    let sp := splitOnL [':'] nameStr
    let fieldName := String.mk (sp.headD [])
    match pyIntParse (sp.getD 1 []) with
    | none => DeclRest.excAfter
    | some w =>
      match valueTypeOfString tok with
      | none => DeclRest.skip
      | some vt =>
        if ¬ isBitfieldValid vt then DeclRest.skip
        else if vt = ValueType.bool ∧ w ≠ 1 then DeclRest.skip
        else DeclRest.ok ⟨fieldName, tok, enumData, some w, none, (0, 0)⟩
  else if nameStr.contains '[' then
    let sp := splitOnL ['['] nameStr
    let fieldName := String.mk (sp.headD [])
    match pyIntParse ((splitOnL [']'] (sp.getD 1 [])).headD []) with
    | none => DeclRest.excAfter
    | some n => DeclRest.ok ⟨fieldName, tok, enumData, none, some n, (0, 0)⟩
  else DeclRest.ok ⟨String.mk nameStr, tok, enumData, none, none, (0, 0)⟩

/-- The enum-block step of the declaration parse: on an `enum` prefix,
locate the brace pair (`none` models the `ValueError` of `str.index`
when one is missing), parse the constants and strip the block. -/
def parseEnumStep (cs : List Char) : Option (Option (List (Int × String)) × List Char) :=
  if List.isPrefixOf ['e', 'n', 'u', 'm'] cs then
    match charIndex lbrace cs, charIndex rbrace cs with
    | some bi, some ei =>
      let body := (pySlice cs ((bi : Int) + 1) (ei : Int)).filter (· ≠ ' ')
      let pairs := (splitOnL [','] body).filter (· ≠ [])
      some (some (parseEnumPairs pairs), pySlice cs ((ei : Int) + 1) (cs.length : Int))
    | _, _ => none
  else some (none, cs)

/-- Parse one declaration string of `_compile_schema` (enum block,
type token, then `parseTail`). -/
def parseDecl (s : String) : DeclParse :=
  match parseEnumStep s.data with
  | none => DeclParse.excBefore
  | some (enumData, rest) =>
    match (splitOnL [' '] rest).filter (· ≠ []) with
    | [] => DeclParse.excBefore
    | tok :: nameToks =>
      DeclParse.withType (String.mk tok) (parseTail (String.mk tok) enumData (joinL nameToks))

/-- The `;`-split declaration list of `_compile_schema`. -/
def declStrings (schema : String) : List String :=
  ((splitOnL [';'] (trimL schema.data)).filter (· ≠ [])).map String.mk

/-- The child-schema names one declaration depends on: its type token
when that token is not a primitive type string. -/
def refsOfDecl (d : String) : List String :=
  match parseDecl d with
  | DeclParse.withType tok _ => if tok ∈ VALID_TYPE_STRINGS then [] else [tok]
  | _ => []

/-- All child-schema names a schema string references. -/
def schemaRefs (s : String) : List String :=
  (declStrings s).flatMap refsOfDecl

/-- The first (parsing) loop of `_compile_schema`: collect the kept
`ValueSchema`s in order.  Result: `none` = exception, `some none` = the
`return False` on a type token that is neither primitive nor compiled,
`some (some l)` = all declarations processed. -/
def collectVS (schemas : List (String × Schema)) : List String → Option (Option (List ValueSchema))
| [] => some (some [])
| d :: rest =>
  match parseDecl d with
  | DeclParse.excBefore => none
  | DeclParse.withType tok r =>
    if tok ∈ VALID_TYPE_STRINGS ∨ (getAssoc tok schemas).isSome then
      match r with
      | DeclRest.excAfter => none
      | DeclRest.skip => collectVS schemas rest
      | DeclRest.ok vs => (collectVS schemas rest).map (Option.map (vs :: ·))
    else some none

/-- One step of the bit-position loop of `_compile_schema`.  The state
is `(bit_position, bitfield_position, bitfield_length)`.  `none`
models the impossible runtime errors (`KeyError` on a missing child
schema, `ValueError` on an invalid primitive token); both are
unreachable because the parsing loop checked the token first. -/
def layoutStep (schemas : List (String × Schema)) (st : Int × Option Int × Option Int)
    (vs : ValueSchema) : Option ((Int × Option Int × Option Int) × ValueSchema) :=
  let bp := st.1
  let bfp := st.2.1
  let bfl := st.2.2
  if vs.type ∉ VALID_TYPE_STRINGS then
    let bp := match bfp, bfl with
      | some p, some l => bp + (l - p)
      | _, _ => bp
    match getAssoc vs.type schemas with
    | none => none
    | some child =>
      let len := child.length * (vs.array_length.getD 1)
      some ((bp + len, none, none), { vs with bit_range := (bp, bp + len) })
  else
    match vs.bitfield_width with
    | none =>
      let bp := match bfp, bfl with
        | some p, some l => bp + (l - p)
        | _, _ => bp
      match valueTypeOfString vs.type with
      | none => none
      | some vt =>
        let bl := (VALUE_TYPE_MAX_BITS vt : Int) * (vs.array_length.getD 1)
        some ((bp + bl, none, none), { vs with bit_range := (bp, bp + bl) })
    | some w =>
      match valueTypeOfString vs.type with
      | none => none
      | some vt =>
        let T : Int := (VALUE_TYPE_MAX_BITS vt : Int)
        let W := min w T
        let next : Int × Int × Int :=
          match bfp, bfl with
          | some p, some l =>
            if (vt ≠ ValueType.bool ∧ l ≠ T) ∨ p + W > l
            then (bp + (l - p), 0, T) else (bp, p, l)
          | _, _ => (bp, 0, T)
        some ((next.1 + W, some (next.2.1 + W), some (next.2.2)),
              { vs with bit_range := (next.1, next.1 + W) })

/-- The bit-position loop over all value schemas. -/
def layoutAux (schemas : List (String × Schema)) :
    (Int × Option Int × Option Int) → List ValueSchema →
    Option (List ValueSchema × (Int × Option Int × Option Int))
| st, [] => some ([], st)
| st, vs :: rest =>
  match layoutStep schemas st vs with
  | none => none
  | some (st', vs') => (layoutAux schemas st' rest).map (fun r => (vs' :: r.1, r.2))

/-- Run the bit-position loop from the initial state and apply the
final flush of a trailing bitfield unit. -/
def layout (schemas : List (String × Schema)) (vss : List ValueSchema) :
    Option (List ValueSchema × Int) :=
  (layoutAux schemas (0, none, none) vss).map (fun r =>
    let bp := r.2.1
    let final := match r.2.2.1, r.2.2.2 with
      | some p, some l => bp + (l - p)
      | _, _ => bp
    (r.1, final))

/-- `_compile_schema` without the store into `self.schemas` (the caller
performs it).  `none` = exception, `some none` = `return False`
(missing dependency), `some (some sch)` = success. -/
def compile_schema (schemas : List (String × Schema)) (schema : String) : Option (Option Schema) :=
  match collectVS schemas (declStrings schema) with
  | none => none
  | some none => some none
  | some (some vss) =>
    match layout schemas vss with
    | none => none
    | some (l, len) => some (some ⟨len, l⟩)

/-- The `for schema_name in self.schema_strings` pass of `add_schema`:
try to compile every string not yet compiled, threading the growing
schema map and a progress flag. -/
def compilePassAux (strings : List (String × String)) (schemas : List (String × Schema))
    (prog : Bool) : Option (List (String × Schema) × Bool) :=
  match strings with
  | [] => some (schemas, prog)
  | (n, s) :: rest =>
    if (getAssoc n schemas).isSome then compilePassAux rest schemas prog
    else
      match compile_schema schemas s with
      | none => none
      | some none => compilePassAux rest schemas prog
      | some (some sch) => compilePassAux rest (setAssoc n sch schemas) true

/-- The `while True` fixed-point loop of `add_schema`.  The fuel only
bounds the iteration count; every call below passes more fuel than the
number of pending schemas, and each productive pass compiles at least
one of them, so the `fuel = 0` case is never the value actually
returned (Python's loop terminates for the same counting reason). -/
def compileLoop : Nat → List (String × String) → List (String × Schema) →
    Option (List (String × Schema))
| 0, _, schemas => some schemas
| fuel + 1, strings, schemas =>
  match compilePassAux strings schemas false with
  | none => none
  | some (schemas', true) => compileLoop fuel strings schemas'
  | some (schemas', false) => some schemas'

/-- `StructDecoder.add_schema` (the `bytes.decode` of the UTF-8 schema
payload is elided: schemas are passed as the decoded strings).  `none`
models a compile exception propagating out of the call. -/
def add_schema (name schema : String) (st : StructDecoder) : Option StructDecoder :=
  if (getAssoc name st.schema_strings).isSome then some st
  else
    let strings := st.schema_strings ++ [(name, schema)]
    (compileLoop (strings.length + 1) strings st.schemas).map (fun schemas => ⟨strings, schemas⟩)

/-- Whether a declaration-parse outcome raised no exception. -/
def DeclParse.okB : DeclParse → Bool
| DeclParse.excBefore => false
| DeclParse.withType _ DeclRest.excAfter => false
| DeclParse.withType _ DeclRest.skip => true
| DeclParse.withType _ (DeclRest.ok _) => true

/-- A declaration string whose parse raises no exception: `false` when
the enum block or the type token is malformed (`excBefore`) or an
`int()` on a width fails (`excAfter`). -/
def declOk (d : String) : Bool :=
  (parseDecl d).okB

/-- Every declaration of a schema string parses without raising an
exception. -/
def schemaOk (s : String) : Bool :=
  (declStrings s).all declOk

/-- A sequence of `add_schema` calls starting from a decoder state,
stopping at the first raised exception. -/
def addSchemaAll (calls : List (String × String)) (st : StructDecoder) : Option StructDecoder :=
  calls.foldlM (fun st c => add_schema c.1 c.2 st) st

-- --- Bit slicing utilities ---

/-- `_to_bool_array`: LSB-first bit expansion of each byte. -/
def to_bool_array (bs : List Nat) : List Bool :=
  bs.flatMap (fun v => (List.range 8).map (fun shift => Nat.testBit v shift))

/-- The byte value of up to eight LSB-first bits. -/
def byteOfBits (c : List Bool) : Nat :=
  c.foldr (fun b acc => (cond b 1 0) + 2 * acc) 0

/-- `_to_bytes_array`: pack LSB-first bits into `ceil(len/8)` bytes
(structural recursion chunking eight bits at a time). -/
def to_bytes_array : List Bool → List Nat
| [] => []
| b0 :: b1 :: b2 :: b3 :: b4 :: b5 :: b6 :: b7 :: rest =>
  byteOfBits [b0, b1, b2, b3, b4, b5, b6, b7] :: to_bytes_array rest
| l => [byteOfBits l]

/-- `_slice_bits`. -/
def slice_bits (input : List Nat) (r : Int × Int) : List Nat × Int :=
  let s := r.1
  let e := r.2
  if s % 8 = 0 ∧ e % 8 = 0 then
    (pySlice input (s.fdiv 8) (e.fdiv 8), e - s)
  else
    (to_bytes_array (pySlice (to_bool_array input) s e), e - s)

-- --- Value decoding ---

/-- Right-pad with zero bytes to `w` bytes (`value + b"\x00" * (w - len)`;
a negative repeat count appends nothing, like Python). -/
def padTo (v : List Nat) (w : Nat) : List Nat :=
  v ++ List.replicate (w - v.length) 0

/-- Little-endian unsigned integer of a byte list. -/
def leUInt (bs : List Nat) : Nat :=
  bs.foldr (fun b acc => b + 256 * acc) 0

/-- Two's-complement reinterpretation at `bits` width. -/
def toSigned (bits : Nat) (u : Nat) : Int :=
  if u < 2 ^ (bits - 1) then (u : Int) else (u : Int) - 2 ^ bits

/-- `bytes.decode("utf-8", errors="ignore")`, exact on the ASCII bytes
this development exercises (multi-byte sequences never occur in it). -/
def asciiDecode (bs : List Nat) : String :=
  String.mk ((bs.filter (· < 128)).map Char.ofNat)

/-- Exact rational value of an IEEE-754 bit pattern with `eb` exponent
bits and `mb` mantissa bits (`floatNonfinite` for Inf/NaN patterns). -/
def floatFromBits (eb mb : Nat) (u : Nat) : PyValue :=
  let mant := u % 2 ^ mb
  let exp := (u / 2 ^ mb) % 2 ^ eb
  let sign : Rat := if (u / 2 ^ (mb + eb)) % 2 = 1 then -1 else 1
  let bias : Int := 2 ^ (eb - 1) - 1
  if exp = 2 ^ eb - 1 then PyValue.floatNonfinite
  else if exp = 0 then
    PyValue.floatV (sign * ((mant : Rat) / 2 ^ mb) * (2 : Rat) ^ ((1 : Int) - bias))
  else
    PyValue.floatV (sign * (((2 ^ mb + mant : Nat) : Rat) / 2 ^ mb) * (2 : Rat) ^ ((exp : Int) - bias))

/-- The integer Python compares against enum keys: `x in enum_data`
uses numeric equality, so `True` matches key `1` and `1.0` matches
key `1`. -/
def pyEnumKey : PyValue → Option Int
| PyValue.boolV b => some (cond b 1 0)
| PyValue.intV n => some n
| PyValue.floatV q => if q.den = 1 then some q.num else none
| _ => none

/-- `_decode_value`. -/
def decode_value (value : List Nat) (vt : ValueType) (enumData : Option (List (Int × String))) :
    PyValue :=
  let padded := padTo value (VALUE_TYPE_MAX_BITS vt / 8)
  let out : PyValue :=
    match vt with
    | ValueType.bool => PyValue.boolV (padded.headD 0 > 0)
    | ValueType.char => PyValue.strV (asciiDecode value)
    | ValueType.int8 => PyValue.intV (toSigned 8 (leUInt (padded.take 1)))
    | ValueType.int16 => PyValue.intV (toSigned 16 (leUInt (padded.take 2)))
    | ValueType.int32 => PyValue.intV (toSigned 32 (leUInt (padded.take 4)))
    | ValueType.int64 => PyValue.intV (toSigned 64 (leUInt (padded.take 8)))
    | ValueType.uint8 => PyValue.intV (leUInt (padded.take 1))
    | ValueType.uint16 => PyValue.intV (leUInt (padded.take 2))
    | ValueType.uint32 => PyValue.intV (leUInt (padded.take 4))
    | ValueType.uint64 => PyValue.intV (leUInt (padded.take 8))
    | ValueType.float => floatFromBits 8 23 (leUInt (padded.take 4))
    | ValueType.float32 => floatFromBits 8 23 (leUInt (padded.take 4))
    | ValueType.double => floatFromBits 11 52 (leUInt (padded.take 8))
    | ValueType.float64 => floatFromBits 11 52 (leUInt (padded.take 8))
  match enumData with
  | none => out
  | some m =>
    match pyEnumKey out with
    | some k =>
      match getAssoc k m with
      | some nm => PyValue.strV nm
      | none => out
    | none => out

/-- Result shape of `decode` / `decode_array`. -/
structure DecodeResult where
  data : PyValue
  schema_types : List (String × String)
deriving Repr

/-- Python `range(start, stop, step)` as a list (`none` models the
`ValueError` on a zero step). -/
def pyRangeStep (start stop step : Int) : Option (List Int) :=
  if step = 0 then none
  else
    let count : Int :=
      if step > 0 then max 0 ((stop - start + step - 1).fdiv step)
      else max 0 ((start - stop + (-step) - 1).fdiv (-step))
    some ((List.range count.toNat).map (fun i => start + step * (i : Int)))

/-- The string join of `char[]` decoding; each element is a `strV`
(the `_decode_value` result for `char`). -/
def joinCharValues (vals : List PyValue) : String :=
  vals.foldl (fun acc v =>
    match v with
    | PyValue.strV s => acc ++ s
    | _ => acc) ""

/-- One entry of the `for value_schema in schema.value_schemas` loop of
`decode`, as an update of the `(output_data, output_schema_types)`
accumulator pair.  `child` is the recursive decoder for child-struct
entries, supplied by `decodeAny`; `none` models the exceptions the
entry can raise (a zero array length dividing the item width, a zero
range step, or a failing child decode). -/
def decodeField (child : Bool → String → List Nat → Option Int → Option DecodeResult)
    (value : List Nat) (vs : ValueSchema)
    (acc : List (String × PyValue) × List (String × String)) :
    Option (List (String × PyValue) × List (String × String)) :=
  let sliced := slice_bits value vs.bit_range
  let valueArray := sliced.1
  let valueBitLength := sliced.2
  if vs.type ∈ VALID_TYPE_STRINGS then
    match valueTypeOfString vs.type with
    | none => none
    | some vt =>
      match vs.array_length with
      | none => some (setAssoc vs.name (decode_value valueArray vt vs.enum) acc.1, acc.2)
      | some al =>
        if al = 0 then none
        else
          let itemLength := (vs.bit_range.2 - vs.bit_range.1).fdiv al
          match pyRangeStep 0 valueBitLength itemLength with
          | none => none
          | some positions =>
            let decoded := positions.map (fun pos =>
              decode_value (slice_bits valueArray (pos, pos + itemLength)).1 vt vs.enum)
            if vt = ValueType.char then
              some (setAssoc vs.name (PyValue.strV (joinCharValues decoded)) acc.1, acc.2)
            else
              some (setAssoc vs.name (PyValue.listV decoded) acc.1, acc.2)
  else
    let isArray := vs.array_length.isSome
    match child isArray vs.type valueArray vs.array_length with
    | none => none
    | some c =>
      let st1 := setAssoc vs.name (vs.type ++ (if isArray then "[]" else "")) acc.2
      let st2 := c.schema_types.foldl (fun m p => setAssoc (vs.name ++ "/" ++ p.1) p.2 m) st1
      some (setAssoc vs.name c.data acc.1, st2)

/-- `StructDecoder.decode` and `StructDecoder.decode_array` in one
function (`asArray` selects which), with structural recursion on a fuel
bound so concrete decodes evaluate inside the kernel.  `none` models
every exception the Python bodies can raise (unknown schema name,
zero-division on the array element width).  The fuel only bounds
recursion through child-struct references: compiled schema maps are
acyclic by construction (a schema compiles only after its children), so
any fuel above the reference depth — in particular the
`schemas.length + 1` the callers pass — yields the value Python
computes. -/
def decodeAny : Nat → List (String × Schema) → Bool → String → List Nat →
    Option Int → Option Int → Option DecodeResult
| 0, _, _, _, _, _, _ => none
| fuel + 1, schemas, asArray, name, value, _bitLength, arrayLength =>
  match getAssoc name schemas with
  | none => none
  | some schema =>
    if asArray then
      let schemaLength := schema.length.fdiv 8
      let lengthOpt : Option Int :=
        match arrayLength with
        | some al => some al
        | none => if schemaLength = 0 then none else some ((value.length : Int).fdiv schemaLength)
      match lengthOpt with
      | none => none
      | some length =>
        -- the `for i in range(length)` loop of `decode_array`
        let step := fun (acc : Option (List PyValue × List (String × String))) (i : Nat) =>
          match acc with
          | none => none
          | some acc =>
            let slice := pySlice value ((i : Int) * schemaLength) (((i : Int) + 1) * schemaLength)
            match decodeAny fuel schemas false name slice none none with
            | none => none
            | some d =>
              let st1 := d.schema_types.foldl
                (fun m p => setAssoc (toString i ++ "/" ++ p.1) p.2 m) acc.2
              some (acc.1 ++ [d.data], setAssoc (toString i) name st1)
        ((List.range (max 0 length).toNat).foldl step (some ([], []))).map
          (fun r => { data := PyValue.listV r.1, schema_types := r.2 })
    else
      -- the defaulted local `bit_length = len(value) * 8` of `decode` is
      -- never read after its assignment (the parameter is threaded only
      -- to mirror the signature); child calls receive the sliced bit
      -- width of their own entry
      let step := fun (acc : Option (List (String × PyValue) × List (String × String)))
          (vs : ValueSchema) =>
        match acc with
        | none => none
        | some acc =>
          decodeField (fun ia nm va al =>
            if ia then decodeAny fuel schemas true nm va none al
            else decodeAny fuel schemas false nm va (some (slice_bits value vs.bit_range).2) al)
            value vs acc
      (schema.value_schemas.foldl step (some ([], []))).map (fun r =>
        { data := PyValue.dictV r.1, schema_types := r.2 })

/-- `StructDecoder.decode`. -/
def decode (fuel : Nat) (schemas : List (String × Schema)) (name : String)
    (value : List Nat) (bitLength : Option Int) : Option DecodeResult :=
  decodeAny fuel schemas false name value bitLength none

/-- `StructDecoder.decode_array`. -/
def decode_array (fuel : Nat) (schemas : List (String × Schema)) (name : String)
    (value : List Nat) (arrayLength : Option Int) : Option DecodeResult :=
  decodeAny fuel schemas true name value none arrayLength

end StructDecoder

-- === Log (src/Log.py) ===

/-- `QueuedStructure` (Log.py). -/
structure QueuedStructure where
  key : String
  timestamp : Rat
  value : List Nat
  schema_type : String
deriving DecidableEq, Repr

/-- `Log` (Log.py).  The `timestamp_set_cache` / `enable_timestamp_set_cache`
performance cache (only read by `get_timestamps`, which no claim
exercises), the msgpack/proto/photon decoder stubs and `queued_protos`
(never appended to by the modelled code) are omitted. -/
structure Log where
  fields : List (String × LogField) := []
  generated_parents : List String := []
  timestamp_range : Option (Rat × Rat) := none
  changed_fields : List String := []
  struct_decoder : StructDecoder := {}
  queued_structs : List QueuedStructure := []
  queued_struct_arrays : List QueuedStructure := []
deriving Repr

namespace Log

/-- `Log.create_blank_field`. -/
def create_blank_field (key : String) (t : LoggableType) (log : Log) : Log :=
  if (getAssoc key log.fields).isSome then log
  else { log with fields := setAssoc key (LogField.create t) log.fields,
                  changed_fields := setInsert key log.changed_fields }

/-- `Log.update_range_with_timestamp`. -/
def update_range_with_timestamp (t : Rat) (log : Log) : Log :=
  match log.timestamp_range with
  | none => { log with timestamp_range := some (t, t) }
  | some (s, e) => { log with timestamp_range := some (min s t, max e t) }

/-- `Log._process_timestamp` (the timestamp-set-cache maintenance it
also performs is part of the omitted cache). -/
def process_timestamp (_key : String) (t : Rat) (log : Log) : Log :=
  log.update_range_with_timestamp t

/-- The shared body of the seven `Log.put_<T>` writers, which are
textually identical up to the `LoggableType` and the field-level
writer: register a blank field, delegate the write, record the change,
and process the timestamp only when the field's type matches. -/
def putField (key : String) (t : Rat) (ty : LoggableType) (fput : LogField → LogField)
    (log : Log) : Log :=
  let log1 := log.create_blank_field key ty
  let log2 := match getAssoc key log1.fields with
    | some f => { log1 with fields := setAssoc key (fput f) log1.fields }
    | none => log1
  let log3 := { log2 with changed_fields := setInsert key log2.changed_fields }
  match getAssoc key log3.fields with
  | some f => if f.type = ty then log3.process_timestamp key t else log3
  | none => log3

/-- `Log.put_raw`. -/
def put_raw (key : String) (t : Rat) (v : List Nat) (log : Log) : Log :=
  log.putField key t LoggableType.raw (LogField.put_raw t v)

/-- `Log.put_boolean`. -/
def put_boolean (key : String) (t : Rat) (v : Bool) (log : Log) : Log :=
  log.putField key t LoggableType.boolean (LogField.put_boolean t v)

/-- `Log.put_number`. -/
def put_number (key : String) (t : Rat) (v : Rat) (log : Log) : Log :=
  log.putField key t LoggableType.number (LogField.put_number t v)

/-- `Log.put_string`. -/
def put_string (key : String) (t : Rat) (v : String) (log : Log) : Log :=
  log.putField key t LoggableType.string (LogField.put_string t v)

/-- `Log.put_boolean_array`. -/
def put_boolean_array (key : String) (t : Rat) (v : List Bool) (log : Log) : Log :=
  log.putField key t LoggableType.booleanArray (LogField.put_boolean_array t v)

/-- `Log.put_number_array`. -/
def put_number_array (key : String) (t : Rat) (v : List Rat) (log : Log) : Log :=
  log.putField key t LoggableType.numberArray (LogField.put_number_array t v)

/-- `Log.put_string_array`. -/
def put_string_array (key : String) (t : Rat) (v : List String) (log : Log) : Log :=
  log.putField key t LoggableType.stringArray (LogField.put_string_array t v)

/-- `Log.get_field` / `self.fields.get(key)`. -/
def get_field (key : String) (log : Log) : Option LogField :=
  getAssoc key log.fields

/-- `Log.get_type`. -/
def get_type (key : String) (log : Log) : Option LoggableType :=
  (getAssoc key log.fields).map LogField.type

/-- `Log.get_structured_type`. -/
def get_structured_type (key : String) (log : Log) : Option String :=
  match getAssoc key log.fields with
  | some f => f.structured_type
  | none => none

/-- `Log.set_structured_type`. -/
def set_structured_type (key : String) (s : Option String) (log : Log) : Log :=
  match getAssoc key log.fields with
  | some f => { log with fields := setAssoc key { f with structured_type := s } log.fields,
                         changed_fields := setInsert key log.changed_fields }
  | none => log

/-- `Log.get_type_warning`. -/
def get_type_warning (key : String) (log : Log) : Bool :=
  match getAssoc key log.fields with
  | some f => f.type_warning
  | none => false

/-- `Log.set_generated_parent`. -/
def set_generated_parent (key : String) (log : Log) : Log :=
  { log with generated_parents := setInsert key log.generated_parents }

/-- `Log.is_generated_parent`. -/
def is_generated_parent (key : String) (log : Log) : Bool :=
  key ∈ log.generated_parents

/-- `Log.get_range`. -/
def get_range (key : String) (a b : Rat) (log : Log) : Option LogValueSet :=
  (getAssoc key log.fields).map (LogField.get_range a b)

/-- `Log.clear_before_time` (the timestamp-set-cache trimming loop
belongs to the omitted cache). -/
def clear_before_time (t : Rat) (log : Log) : Log :=
  let tr := match log.timestamp_range with
    | none => some (t, t)
    | some (s, e) => if s < t then some (t, max t e) else some (s, e)
  { log with timestamp_range := tr,
             fields := log.fields.map (fun p => (p.1, p.2.clear_before_time t)) }

-- --- `_put_unknown_struct` and structured writers ---

/-- `isinstance(item, bool)`. -/
def isPyBool : PyValue → Bool
| PyValue.boolV _ => true
| _ => false

/-- `isinstance(item, (int, float))`: in Python `bool` is a subclass of
`int`, so booleans pass this test too. -/
def isPyNumLike : PyValue → Bool
| PyValue.boolV _ => true
| PyValue.intV _ => true
| PyValue.floatV _ => true
| PyValue.floatNonfinite => true
| _ => false

/-- `isinstance(item, str)`. -/
def isPyStr : PyValue → Bool
| PyValue.strV _ => true
| _ => false

/-- Coercion used under an all-bool guard. -/
def pyAsBool : PyValue → Bool
| PyValue.boolV b => b
| _ => false

/-- `float(x)` on a value passing `isPyNumLike` (`float(True) = 1.0`).
`floatNonfinite` maps to 0: the IEEE infinities and NaNs are outside
the rational model and no claim exercises them. -/
def pyAsFloat : PyValue → Rat
| PyValue.boolV b => cond b 1 0
| PyValue.intV n => (n : Rat)
| PyValue.floatV q => q
| _ => 0

/-- Identity on a value passing `isPyStr`. -/
def pyAsStr : PyValue → String
| PyValue.strV s => s
| _ => ""

/-- `Log._put_unknown_struct`, with structural recursion on a fuel
bound (so its equations are definitional and concrete runs evaluate in
the kernel).  Each recursive call is on a structurally smaller value,
so fuel equal to `sizeOf` of the value — which `put_unknown_struct`
passes — never runs out: at every call `sizeOf v ≤ fuel` holds and each
child value is strictly smaller.  The list branch folds with an
`(accumulator, index)` pair, mirroring `enumerate`. -/
def putUnknownFuel : Nat → String → Rat → PyValue → Bool → Log → Log
| 0, _, _, _, _, lg => lg
| fuel + 1, key, t, v, allowRoot, lg =>
  match v with
  | PyValue.noneV => lg
  | PyValue.boolV b => if allowRoot then lg.put_boolean key t b else lg
  | PyValue.intV n => if allowRoot then lg.put_number key t (n : Rat) else lg
  | PyValue.floatV q => if allowRoot then lg.put_number key t q else lg
  | PyValue.floatNonfinite => if allowRoot then lg.put_number key t 0 else lg
  | PyValue.strV s => if allowRoot then lg.put_string key t s else lg
  | PyValue.bytesV bs => if allowRoot then lg.put_raw key t bs else lg
  | PyValue.listV xs =>
    if xs.all isPyBool && allowRoot then lg.put_boolean_array key t (xs.map pyAsBool)
    else if xs.all isPyNumLike && allowRoot then lg.put_number_array key t (xs.map pyAsFloat)
    else if xs.all isPyStr && allowRoot then lg.put_string_array key t (xs.map pyAsStr)
    else
      let lg1 := lg.put_number (key ++ "/length") t (xs.length : Rat)
      (xs.foldl (fun acc x =>
        (putUnknownFuel fuel (key ++ "/" ++ toString acc.2) t x true acc.1, acc.2 + 1))
        (lg1, 0)).1
  | PyValue.dictV kvs =>
    kvs.foldl (fun acc kv => putUnknownFuel fuel (key ++ "/" ++ kv.1) t kv.2 true acc) lg

/-- `Log._put_unknown_struct`. -/
def put_unknown_struct (key : String) (t : Rat) (v : PyValue) (allowRoot : Bool)
    (log : Log) : Log :=
  putUnknownFuel v.size key t v allowRoot log

/-- `Log.put_json`.  `decoded` is the outcome of the library call
`json.loads(value)`: `some` its value tree on success, `none` when it
raises `json.JSONDecodeError` (i.e. `value` is not valid JSON). -/
def put_json (key : String) (t : Rat) (value : String) (decoded : Option PyValue)
    (log : Log) : Log :=
  let log1 := log.put_string key t value
  match getAssoc key log1.fields with
  | some f =>
    if f.type = LoggableType.string then
      let log2 := log1.set_generated_parent key
      let log3 := log2.set_structured_type key (some "JSON")
      match decoded with
      | some d => log3.put_unknown_struct key t d false
      | none => log3
    else log1
  | none => log1

/-- The per-entry body of the `for child_key, child_schema_type in
decoded_data["schema_types"].items()` loop of `Log.put_struct`:
register an `Empty` child field so it is discoverable, process its
timestamp, and set its structured type. -/
def put_struct_child (key : String) (t : Rat) (lg : Log) (p : String × String) : Log :=
  let fullChildKey := key ++ "/" ++ p.1
  let lg1 := lg.create_blank_field fullChildKey LoggableType.empty
  let lg2 := lg1.process_timestamp fullChildKey t
  lg2.set_structured_type fullChildKey (some p.2)

/-- `Log.put_struct`.  The decode fuel exceeds the number of compiled
schemas, which bounds the depth of any chain of child-struct references
(a schema compiles only after its children, so reference chains cannot
revisit a name). -/
def put_struct (key : String) (t : Rat) (value : List Nat) (schema_type : String)
    (is_array : Bool) (log : Log) : Log :=
  let log1 := log.put_raw key t value
  match getAssoc key log1.fields with
  | some f =>
    if f.type = LoggableType.raw then
      let log2 := log1.set_generated_parent key
      let log3 := log2.set_structured_type key
        (some (schema_type ++ (if is_array then "[]" else "")))
      let fuel := log3.struct_decoder.schemas.length + 1
      let decoded : Option StructDecoder.DecodeResult :=
        if is_array then
          StructDecoder.decode_array fuel log3.struct_decoder.schemas schema_type value none
        else
          StructDecoder.decode fuel log3.struct_decoder.schemas schema_type value none
      match decoded with
      | some dd =>
        let log4 := log3.put_unknown_struct key t dd.data false
        dd.schema_types.foldl (fun lg p => put_struct_child key t lg p) log4
      | none =>
        if is_array then
          { log3 with queued_struct_arrays :=
              log3.queued_struct_arrays ++ [⟨key, t, value, schema_type⟩] }
        else
          { log3 with queued_structs :=
              log3.queued_structs ++ [⟨key, t, value, schema_type⟩] }
    else log1
  | none => log1

end Log

-- === Ingestion of schema records (src/analysis.py, src/datalog.py) ===

/-- `DataLogRecord` (datalog.py): a data record as handed to the
ingestion loop.  The class defines the accessors `getStartData`,
`getFinishEntry`, `getSetMetadataData`, `getBoolean`, `getInteger`,
`getFloat`, `getDouble`, `getString`, `getMsgPack`, the array variants,
and the plain attribute `data`; it defines NO `getBytes` method. -/
structure DataLogRecord where
  entry : Nat
  timestamp : Nat
  data : List Nat
deriving Repr

/-- Python substring test `sub in s` (for non-empty `sub`): the split
produces more than one part iff the separator occurs. -/
def strContainsSub (s sub : String) : Bool :=
  (splitOnL sub.data s.data).length > 1

/-- The `.schema` branch of `process_log_file` (analysis.py lines
417-419):

  if ".schema" in entry.name:
      log.struct_decoder.add_schema(entry.name.split("struct:")[1], record.getBytes())

Python evaluates `entry.name.split("struct:")[1]` first — an
`IndexError` when the name has no "struct:" — and then looks up
`record.getBytes`, which `DataLogRecord` does not define, raising
`AttributeError`.  Either way the statement raises before `add_schema`
is reached, so the branch is modelled as the exception it raises; the
`Except.ok` leg (no `.schema` in the name) passes the decoder through
untouched. -/
def processSchemaBranch (entryName : String) (_record : DataLogRecord)
    (st : StructDecoder) : Except String StructDecoder :=
  if strContainsSub entryName ".schema" then
    match (splitOnL "struct:".data entryName.data).get? 1 with
    | none => Except.error "IndexError: list index out of range"
    | some _tail => Except.error "AttributeError: DataLogRecord has no attribute getBytes"
  else Except.ok st

-- === Derived definitions used by the verification ===

/-- One `put_<T>` call on a field, tagged by the type `T` it writes:
`FieldPut.apply` dispatches to the seven source writers. -/
inductive FieldPut
| raw (t : Rat) (v : List Nat)
| boolean (t : Rat) (v : Bool)
| number (t : Rat) (v : Rat)
| string (t : Rat) (v : String)
| booleanArray (t : Rat) (v : List Bool)
| numberArray (t : Rat) (v : List Rat)
| stringArray (t : Rat) (v : List String)
deriving DecidableEq, Repr

/-- The `LoggableType` a put call writes. -/
def FieldPut.ty : FieldPut → LoggableType
| FieldPut.raw _ _ => LoggableType.raw
| FieldPut.boolean _ _ => LoggableType.boolean
| FieldPut.number _ _ => LoggableType.number
| FieldPut.string _ _ => LoggableType.string
| FieldPut.booleanArray _ _ => LoggableType.booleanArray
| FieldPut.numberArray _ _ => LoggableType.numberArray
| FieldPut.stringArray _ _ => LoggableType.stringArray

/-- The timestamp of a put call. -/
def FieldPut.ts : FieldPut → Rat
| FieldPut.raw t _ => t
| FieldPut.boolean t _ => t
| FieldPut.number t _ => t
| FieldPut.string t _ => t
| FieldPut.booleanArray t _ => t
| FieldPut.numberArray t _ => t
| FieldPut.stringArray t _ => t

/-- The stored value of a put call. -/
def FieldPut.val : FieldPut → LogValue
| FieldPut.raw _ v => LogValue.raw v
| FieldPut.boolean _ v => LogValue.bool v
| FieldPut.number _ v => LogValue.num v
| FieldPut.string _ v => LogValue.str v
| FieldPut.booleanArray _ v => LogValue.boolArr v
| FieldPut.numberArray _ v => LogValue.numArr v
| FieldPut.stringArray _ v => LogValue.strArr v

/-- Dispatch to the source `LogField.put_<T>` writer. -/
def FieldPut.apply : FieldPut → LogField → LogField
| FieldPut.raw t v, f => f.put_raw t v
| FieldPut.boolean t v, f => f.put_boolean t v
| FieldPut.number t v, f => f.put_number t v
| FieldPut.string t v, f => f.put_string t v
| FieldPut.booleanArray t v, f => f.put_boolean_array t v
| FieldPut.numberArray t v, f => f.put_number_array t v
| FieldPut.stringArray t v, f => f.put_string_array t v

/-- A concrete three-sample log used to exercise `clear_before_time`
on sorted data. -/
def sampleSortedLog : Log :=
  { fields := [("/k",
      { type := LoggableType.number,
        data := { timestamps := [0, 1, 3],
                  values := [LogValue.num 5, LogValue.num 6, LogValue.num 7] } })],
    timestamp_range := some (0, 3) }

/-- The column update `_insert_value` performs on the parallel
timestamp / value lists. -/
def insertData (t : Rat) (v : LogValue) (d : LogValueSet) : LogValueSet :=
  { timestamps := d.timestamps.insertIdx (LogField.insertIndex t d.timestamps) t,
    values := d.values.insertIdx (LogField.insertIndex t d.timestamps) v }

/-- A finite sequence of field-level put calls, applied left to
right. -/
def applyFieldPuts (ops : List FieldPut) (f : LogField) : LogField :=
  ops.foldl (fun f op => op.apply f) f

/-- The samples a field of type `ty` actually accepts from a put
sequence (writes of any other type are dropped with a warning). -/
def acceptedSamples (ty : LoggableType) (ops : List FieldPut) : List (Rat × LogValue) :=
  (ops.filter (fun op => op.ty = ty)).map (fun op => (op.ts, op.val))

/-- Strict order on ghost entries `(timestamp, value, arrival index)`:
earlier timestamp, or equal timestamps in arrival order.  A list that
is pairwise in this order is sorted by timestamp with ties kept in
insertion order. -/
def ghostLex (e e' : Rat × LogValue × Nat) : Prop :=
  e.1 < e'.1 ∨ (e.1 = e'.1 ∧ e.2.2 < e'.2.2)

/-- Insert a ghost entry at the index `_insert_value` would use on the
entry timestamps. -/
def ghostInsert (e : Rat × LogValue × Nat) (g : List (Rat × LogValue × Nat)) :
    List (Rat × LogValue × Nat) :=
  g.insertIdx (LogField.insertIndex e.1 (g.map (fun p => p.1))) e

/-- Run the accepted samples through `ghostInsert`, numbering them by
arrival. -/
def ghostRun : Nat → List (Rat × LogValue) → List (Rat × LogValue × Nat) →
    List (Rat × LogValue × Nat)
| _, [], g => g
| k, tv :: rest, g => ghostRun (k + 1) rest (ghostInsert (tv.1, tv.2, k) g)

/-- The simulation invariant between a field's data columns and the
ghost list: the columns are the projections of the ghost entries, the
ghost list is lexicographically ordered, and all arrival indices are
below the next fresh one. -/
def GhostInv (g : List (Rat × LogValue × Nat)) (d : LogValueSet) (k : Nat) : Prop :=
  d.timestamps = g.map (fun e => e.1) ∧
  d.values = g.map (fun e => e.2.1) ∧
  List.Pairwise ghostLex g ∧
  ∀ e ∈ g, e.2.2 < k

/-- The components of a log that the structural expanders never touch
(everything but the field map, the changed-field set and the timestamp
range). -/
def Log.sideUntouched (lg' lg : Log) : Prop :=
  lg'.generated_parents = lg.generated_parents ∧
  lg'.struct_decoder = lg.struct_decoder ∧
  lg'.queued_structs = lg.queued_structs ∧
  lg'.queued_struct_arrays = lg.queued_struct_arrays

/-- Keys a `_put_unknown_struct` call can write: the root key itself
only when `allow_root_write` is set, and child keys, which are strictly
longer than the root.  The predicate states the keys it therefore
leaves alone. -/
def PutPreserve (v : PyValue) : Prop :=
  ∀ (key : String) (t : Rat) (allow : Bool) (lg : Log),
    Log.sideUntouched (lg.put_unknown_struct key t v allow) lg ∧
    ∀ k' : String, (if allow then k'.length < key.length else k'.length ≤ key.length) →
      getAssoc k' (lg.put_unknown_struct key t v allow).fields = getAssoc k' lg.fields

-- === Helper lemmas ===

lemma getAssoc_setAssoc_self {κ α : Type} [DecidableEq κ] (k : κ) (v : α) :
    ∀ l : List (κ × α), getAssoc k (setAssoc k v l) = some v
| [] => by simp [getAssoc, setAssoc]
| (k', v') :: rest => by
  by_cases h : k' = k
  · simp [getAssoc, setAssoc, h]
  · simp [getAssoc, setAssoc, h, getAssoc_setAssoc_self k v rest]

lemma getAssoc_setAssoc_ne {κ α : Type} [DecidableEq κ] (k k' : κ) (v : α)
    (h : k' ≠ k) : ∀ l : List (κ × α), getAssoc k' (setAssoc k v l) = getAssoc k' l
| [] => by simp [getAssoc, setAssoc, Ne.symm h]
| (k'', v'') :: rest => by
  by_cases h2 : k'' = k
  · subst h2
    simp [getAssoc, setAssoc, Ne.symm h]
  · by_cases h3 : k'' = k'
    · simp [getAssoc, setAssoc, h2, h3, h]
    · simp [getAssoc, setAssoc, h2, h3, getAssoc_setAssoc_ne k k' v h rest]

lemma mem_setInsert_self (k : String) (s : List String) : k ∈ setInsert k s := by
  by_cases h : k ∈ s <;> simp [setInsert, h]

lemma LogField.insertIndex_le_length (t : Rat) :
    ∀ l : List Rat, LogField.insertIndex t l ≤ l.length
| [] => by simp [LogField.insertIndex]
| x :: xs => by
  by_cases h : x > t
  · simp [LogField.insertIndex, h]
  · simpa [LogField.insertIndex, h] using LogField.insertIndex_le_length t xs

/-- Every `put_<T>` writer is the type guard followed by
`_insert_value`. -/
lemma FieldPut.apply_eq (op : FieldPut) (f : LogField) :
    op.apply f = if f.type ≠ op.ty then { f with type_warning := true }
                 else f.insert_value op.ts op.val := by
  cases op <;> rfl

/-- The `get_range` scan loop is the closed-interval filter over the
zipped sample columns. -/
lemma LogField.getRangeAux_eq_filter (a b : Rat) :
    ∀ (ts : List Rat) (vs : List LogValue), ts.length = vs.length →
      LogField.getRangeAux a b ts vs =
        (((ts.zip vs).filter (fun p => decide (a ≤ p.1 ∧ p.1 ≤ b))).map Prod.fst,
         ((ts.zip vs).filter (fun p => decide (a ≤ p.1 ∧ p.1 ≤ b))).map Prod.snd)
| [], [], _ => by simp [LogField.getRangeAux]
| [], _ :: _, h => by simp at h
| _ :: _, [], h => by simp at h
| t :: ts, v :: vs, h => by
  have ih := LogField.getRangeAux_eq_filter a b ts vs (by simpa using h)
  by_cases hc : a ≤ t ∧ t ≤ b
  · simp [LogField.getRangeAux, ih, List.filter_cons, hc]
  · simp [LogField.getRangeAux, ih, List.filter_cons, hc]

-- === Log-level support lemmas ===

lemma Log.create_blank_field_getAssoc_self (log : Log) (key : String) (ty : LoggableType) :
    getAssoc key (log.create_blank_field key ty).fields =
      some ((getAssoc key log.fields).getD (LogField.create ty)) := by
  unfold Log.create_blank_field
  cases h : getAssoc key log.fields with
  | some f => simp [h]
  | none => simp [h, getAssoc_setAssoc_self]

lemma Log.create_blank_field_getAssoc_ne (log : Log) (key k' : String) (ty : LoggableType)
    (h : k' ≠ key) :
    getAssoc k' (log.create_blank_field key ty).fields = getAssoc k' log.fields := by
  unfold Log.create_blank_field
  cases hh : getAssoc key log.fields with
  | some f => simp [hh]
  | none => simp [hh, getAssoc_setAssoc_ne key k' _ h]

lemma Log.create_blank_field_parts (log : Log) (key : String) (ty : LoggableType) :
    (log.create_blank_field key ty).generated_parents = log.generated_parents ∧
    (log.create_blank_field key ty).struct_decoder = log.struct_decoder ∧
    (log.create_blank_field key ty).queued_structs = log.queued_structs ∧
    (log.create_blank_field key ty).queued_struct_arrays = log.queued_struct_arrays ∧
    (log.create_blank_field key ty).timestamp_range = log.timestamp_range := by
  unfold Log.create_blank_field
  split <;> simp

lemma Log.update_range_parts (log : Log) (t : Rat) :
    (log.update_range_with_timestamp t).fields = log.fields ∧
    (log.update_range_with_timestamp t).generated_parents = log.generated_parents ∧
    (log.update_range_with_timestamp t).struct_decoder = log.struct_decoder ∧
    (log.update_range_with_timestamp t).queued_structs = log.queued_structs ∧
    (log.update_range_with_timestamp t).queued_struct_arrays = log.queued_struct_arrays := by
  unfold Log.update_range_with_timestamp
  split <;> simp

/-- The shared writer body: the field map after `put_<T>` updates the
key with the dispatched field write (registering a blank field first),
and every other component of the log except `changed_fields` and
`timestamp_range` is untouched. -/
lemma Log.putField_parts (log : Log) (key : String) (t : Rat) (ty : LoggableType)
    (fput : LogField → LogField) :
    (log.putField key t ty fput).fields =
      setAssoc key (fput ((getAssoc key log.fields).getD (LogField.create ty)))
        ((log.create_blank_field key ty).fields) ∧
    (log.putField key t ty fput).generated_parents = log.generated_parents ∧
    (log.putField key t ty fput).struct_decoder = log.struct_decoder ∧
    (log.putField key t ty fput).queued_structs = log.queued_structs ∧
    (log.putField key t ty fput).queued_struct_arrays = log.queued_struct_arrays := by
  unfold Log.putField
  simp only [Log.create_blank_field_getAssoc_self, Option.getD_some, getAssoc_setAssoc_self]
  obtain ⟨hg, hs, hq, ha, _⟩ := log.create_blank_field_parts key ty
  split
  · simp [Log.process_timestamp, (Log.update_range_parts _ t).1, (Log.update_range_parts _ t).2.1,
      (Log.update_range_parts _ t).2.2.1, (Log.update_range_parts _ t).2.2.2.1,
      (Log.update_range_parts _ t).2.2.2.2, hg, hs, hq, ha]
  · simp [hg, hs, hq, ha]

lemma Log.putField_getAssoc_self (log : Log) (key : String) (t : Rat) (ty : LoggableType)
    (fput : LogField → LogField) :
    getAssoc key (log.putField key t ty fput).fields =
      some (fput ((getAssoc key log.fields).getD (LogField.create ty))) := by
  rw [(log.putField_parts key t ty fput).1, getAssoc_setAssoc_self]

lemma Log.putField_getAssoc_ne (log : Log) (key k' : String) (t : Rat) (ty : LoggableType)
    (fput : LogField → LogField) (h : k' ≠ key) :
    getAssoc k' (log.putField key t ty fput).fields = getAssoc k' log.fields := by
  rw [(log.putField_parts key t ty fput).1, getAssoc_setAssoc_ne key k' _ h,
    log.create_blank_field_getAssoc_ne key k' ty h]

lemma Log.set_structured_type_getAssoc_self (log : Log) (key : String) (s : Option String) :
    getAssoc key (log.set_structured_type key s).fields =
      (getAssoc key log.fields).map (fun f => { f with structured_type := s }) := by
  unfold Log.set_structured_type
  cases h : getAssoc key log.fields with
  | some f => simp [h, getAssoc_setAssoc_self]
  | none => simp [h]

lemma Log.set_structured_type_getAssoc_ne (log : Log) (key k' : String) (s : Option String)
    (h : k' ≠ key) :
    getAssoc k' (log.set_structured_type key s).fields = getAssoc k' log.fields := by
  unfold Log.set_structured_type
  cases hh : getAssoc key log.fields with
  | some f => simp [hh, getAssoc_setAssoc_ne key k' _ h]
  | none => simp [hh]

lemma Log.set_structured_type_parts (log : Log) (key : String) (s : Option String) :
    (log.set_structured_type key s).generated_parents = log.generated_parents ∧
    (log.set_structured_type key s).struct_decoder = log.struct_decoder ∧
    (log.set_structured_type key s).queued_structs = log.queued_structs ∧
    (log.set_structured_type key s).queued_struct_arrays = log.queued_struct_arrays ∧
    (log.set_structured_type key s).timestamp_range = log.timestamp_range := by
  unfold Log.set_structured_type
  split <;> simp

lemma Log.set_generated_parent_parts (log : Log) (key : String) :
    (log.set_generated_parent key).fields = log.fields ∧
    (log.set_generated_parent key).struct_decoder = log.struct_decoder ∧
    (log.set_generated_parent key).queued_structs = log.queued_structs ∧
    (log.set_generated_parent key).queued_struct_arrays = log.queued_struct_arrays ∧
    key ∈ (log.set_generated_parent key).generated_parents := by
  refine ⟨rfl, rfl, rfl, rfl, mem_setInsert_self key _⟩

lemma Log.sideUntouched_refl (lg : Log) : Log.sideUntouched lg lg :=
  ⟨rfl, rfl, rfl, rfl⟩

lemma Log.sideUntouched_trans {a b c : Log} (h1 : Log.sideUntouched a b)
    (h2 : Log.sideUntouched b c) : Log.sideUntouched a c :=
  ⟨h1.1.trans h2.1, h1.2.1.trans h2.2.1, h1.2.2.1.trans h2.2.2.1, h1.2.2.2.trans h2.2.2.2⟩

lemma ne_of_length_lt {a b : String} (h : a.length < b.length) : a ≠ b := by
  intro he
  rw [he] at h
  exact lt_irrefl _ h

/-- A single `put_<T>` touches only its own key in the field map and no
other log component besides `changed_fields` / `timestamp_range`. -/
lemma preserve_putField_at (lg : Log) (key : String) (t : Rat) (ty : LoggableType)
    (fput : LogField → LogField) :
    Log.sideUntouched (lg.putField key t ty fput) lg ∧
    ∀ k', k' ≠ key → getAssoc k' (lg.putField key t ty fput).fields = getAssoc k' lg.fields := by
  obtain ⟨_, h1, h2, h3, h4⟩ := lg.putField_parts key t ty fput
  exact ⟨⟨h1, h2, h3, h4⟩, fun k' hk => lg.putField_getAssoc_ne key k' t ty fput hk⟩

/-- `_put_unknown_struct` writes only at its own key (and only with
`allow_root_write`) and at strictly longer child keys; every key at or
above the root is untouched, and so is every log component other than
the fields / changed set / range.  Induction on the fuel bound. -/
lemma putUnknownFuel_preserve :
    ∀ (fuel : Nat) (v : PyValue) (key : String) (t : Rat) (allow : Bool) (lg : Log),
      Log.sideUntouched (Log.putUnknownFuel fuel key t v allow lg) lg ∧
      ∀ k' : String, (if allow then k'.length < key.length else k'.length ≤ key.length) →
        getAssoc k' (Log.putUnknownFuel fuel key t v allow lg).fields = getAssoc k' lg.fields := by
  intro fuel
  induction fuel with
  | zero =>
    intro v key t allow lg
    exact ⟨Log.sideUntouched_refl _, fun _ _ => rfl⟩
  | succ n ih =>
    have hboundle : ∀ (allow : Bool) (k' key : String),
        (if allow then k'.length < key.length else k'.length ≤ key.length) →
        k'.length ≤ key.length := by
      intro allow k' key hb
      cases allow
      · simpa using hb
      · exact le_of_lt (by simpa using hb)
    have hchildlen : ∀ (key sub : String), key.length < (key ++ "/" ++ sub).length := by
      intro key sub
      have hslash : ("/" : String).length = 1 := rfl
      simp only [String.length_append, hslash]
      omega
    intro v key t allow lg
    have hprim : ∀ (ty : LoggableType) (fput : LogField → LogField),
        Log.sideUntouched (if allow then lg.putField key t ty fput else lg) lg ∧
        ∀ k' : String, (if allow then k'.length < key.length else k'.length ≤ key.length) →
          getAssoc k' (if allow then lg.putField key t ty fput else lg).fields =
            getAssoc k' lg.fields := by
      intro ty fput
      cases allow with
      | true =>
        exact ⟨(preserve_putField_at lg key t ty fput).1,
          fun k' hb => (preserve_putField_at lg key t ty fput).2 k'
            (ne_of_length_lt (by simpa using hb))⟩
      | false =>
        exact ⟨Log.sideUntouched_refl _, fun k' _ => rfl⟩
    cases v with
    | noneV => exact ⟨Log.sideUntouched_refl _, fun _ _ => rfl⟩
    | boolV b => exact hprim _ _
    | intV m => exact hprim _ _
    | floatV q => exact hprim _ _
    | floatNonfinite => exact hprim _ _
    | strV s => exact hprim _ _
    | bytesV bs => exact hprim _ _
    | listV xs =>
      show Log.sideUntouched (Log.putUnknownFuel (n + 1) key t (PyValue.listV xs) allow lg) lg ∧ _
      simp only [Log.putUnknownFuel]
      by_cases h1 : (xs.all Log.isPyBool && allow) = true
      · rw [if_pos h1]
        have hallow : allow = true := by revert h1; cases allow <;> simp
        subst hallow
        exact hprim _ _ |>.imp (fun h => by simpa using h) (fun h k' hb => by
          have := h k' hb; simpa using this)
      · rw [if_neg h1]
        by_cases h2 : (xs.all Log.isPyNumLike && allow) = true
        · rw [if_pos h2]
          have hallow : allow = true := by revert h2; cases allow <;> simp
          subst hallow
          exact hprim _ _ |>.imp (fun h => by simpa using h) (fun h k' hb => by
            have := h k' hb; simpa using this)
        · rw [if_neg h2]
          by_cases h3 : (xs.all Log.isPyStr && allow) = true
          · rw [if_pos h3]
            have hallow : allow = true := by revert h3; cases allow <;> simp
            subst hallow
            exact hprim _ _ |>.imp (fun h => by simpa using h) (fun h k' hb => by
              have := h k' hb; simpa using this)
          · rw [if_neg h3]
            have hfold : ∀ (ys : List PyValue) (lg0 : Log) (i : Nat),
                Log.sideUntouched ((ys.foldl (fun acc x =>
                  (Log.putUnknownFuel n (key ++ "/" ++ toString acc.2) t x true acc.1,
                   acc.2 + 1)) (lg0, i)).1) lg0 ∧
                ∀ k', k'.length ≤ key.length →
                  getAssoc k' ((ys.foldl (fun acc x =>
                    (Log.putUnknownFuel n (key ++ "/" ++ toString acc.2) t x true acc.1,
                     acc.2 + 1)) (lg0, i)).1).fields = getAssoc k' lg0.fields := by
              intro ys
              induction ys with
              | nil => exact fun lg0 i => ⟨Log.sideUntouched_refl _, fun _ _ => rfl⟩
              | cons x rest ihx =>
                intro lg0 i
                simp only [List.foldl_cons]
                have hh := ih x (key ++ "/" ++ toString i) t true lg0
                have ht := ihx (Log.putUnknownFuel n (key ++ "/" ++ toString i) t x true lg0)
                  (i + 1)
                refine ⟨Log.sideUntouched_trans ht.1 hh.1, fun k' hb => ?_⟩
                rw [ht.2 k' hb]
                exact hh.2 k' (by simpa using lt_of_le_of_lt hb (hchildlen key (toString i)))
            have hlenf : key.length < (key ++ "/length").length := by
              have h7 : ("/length" : String).length = 7 := rfl
              simp [String.length_append, h7]
            have hstep := preserve_putField_at lg (key ++ "/length") t
              LoggableType.number (LogField.put_number t (xs.length : Rat))
            have hrec := hfold xs (lg.put_number (key ++ "/length") t (xs.length : Rat)) 0
            refine ⟨Log.sideUntouched_trans hrec.1 hstep.1, fun k' hb => ?_⟩
            have hb' := hboundle allow k' key hb
            rw [hrec.2 k' hb']
            exact hstep.2 k' (ne_of_length_lt (lt_of_le_of_lt hb' hlenf))
    | dictV kvs =>
      show Log.sideUntouched (Log.putUnknownFuel (n + 1) key t (PyValue.dictV kvs) allow lg) lg ∧ _
      simp only [Log.putUnknownFuel]
      have hfold : ∀ (ys : List (String × PyValue)) (lg0 : Log),
          Log.sideUntouched ((ys.foldl (fun acc kv =>
            Log.putUnknownFuel n (key ++ "/" ++ kv.1) t kv.2 true acc) lg0)) lg0 ∧
          ∀ k', k'.length ≤ key.length →
            getAssoc k' ((ys.foldl (fun acc kv =>
              Log.putUnknownFuel n (key ++ "/" ++ kv.1) t kv.2 true acc) lg0)).fields =
              getAssoc k' lg0.fields := by
        intro ys
        induction ys with
        | nil => exact fun lg0 => ⟨Log.sideUntouched_refl _, fun _ _ => rfl⟩
        | cons kv rest ihx =>
          intro lg0
          simp only [List.foldl_cons]
          have hh := ih kv.2 (key ++ "/" ++ kv.1) t true lg0
          have ht := ihx (Log.putUnknownFuel n (key ++ "/" ++ kv.1) t kv.2 true lg0)
          refine ⟨Log.sideUntouched_trans ht.1 hh.1, fun k' hb => ?_⟩
          rw [ht.2 k' hb]
          exact hh.2 k' (by simpa using lt_of_le_of_lt hb (hchildlen key kv.1))
      exact ⟨(hfold kvs lg).1, fun k' hb => (hfold kvs lg).2 k' (hboundle allow k' key hb)⟩

/-- The preservation statement specialised to `_put_unknown_struct`. -/
lemma put_unknown_struct_preserve (v : PyValue) : PutPreserve v :=
  fun key t allow lg => putUnknownFuel_preserve v.size v key t allow lg

lemma length_lt_child (key sub : String) : key.length < (key ++ "/" ++ sub).length := by
  have hslash : ("/" : String).length = 1 := rfl
  simp only [String.length_append, hslash]
  omega

/-- The child-field creation loop of `put_struct` touches only keys
strictly below the parent and never the generated-parent set or the
queues. -/
lemma put_struct_child_foldl (key : String) (t : Rat) :
    ∀ (l : List (String × String)) (lg : Log),
      ((l.foldl (fun lg p => Log.put_struct_child key t lg p) lg).generated_parents =
        lg.generated_parents) ∧
      ((l.foldl (fun lg p => Log.put_struct_child key t lg p) lg).queued_structs =
        lg.queued_structs) ∧
      ((l.foldl (fun lg p => Log.put_struct_child key t lg p) lg).queued_struct_arrays =
        lg.queued_struct_arrays) ∧
      ∀ k', k'.length ≤ key.length →
        getAssoc k' ((l.foldl (fun lg p => Log.put_struct_child key t lg p) lg)).fields =
          getAssoc k' lg.fields
| [], lg => ⟨rfl, rfl, rfl, fun _ _ => rfl⟩
| p :: rest, lg => by
  simp only [List.foldl_cons]
  have hne : ∀ k', k'.length ≤ key.length → k' ≠ key ++ "/" ++ p.1 := fun k' hk =>
    ne_of_length_lt (lt_of_le_of_lt hk (length_lt_child key p.1))
  have hstep_fields : ∀ k', k'.length ≤ key.length →
      getAssoc k' (Log.put_struct_child key t lg p).fields = getAssoc k' lg.fields := by
    intro k' hk
    unfold Log.put_struct_child
    rw [Log.set_structured_type_getAssoc_ne _ _ _ _ (hne k' hk)]
    show getAssoc k' ((lg.create_blank_field (key ++ "/" ++ p.1)
      LoggableType.empty).update_range_with_timestamp t).fields = _
    rw [(Log.update_range_parts _ t).1]
    exact lg.create_blank_field_getAssoc_ne _ k' _ (hne k' hk)
  have hstep_gen : (Log.put_struct_child key t lg p).generated_parents =
      lg.generated_parents := by
    unfold Log.put_struct_child
    rw [(Log.set_structured_type_parts _ _ _).1]
    show ((lg.create_blank_field (key ++ "/" ++ p.1)
      LoggableType.empty).update_range_with_timestamp t).generated_parents = _
    rw [(Log.update_range_parts _ t).2.1]
    exact (lg.create_blank_field_parts _ _).1
  have hstep_q1 : (Log.put_struct_child key t lg p).queued_structs = lg.queued_structs := by
    unfold Log.put_struct_child
    rw [(Log.set_structured_type_parts _ _ _).2.2.1]
    show ((lg.create_blank_field (key ++ "/" ++ p.1)
      LoggableType.empty).update_range_with_timestamp t).queued_structs = _
    rw [(Log.update_range_parts _ t).2.2.2.1]
    exact (lg.create_blank_field_parts _ _).2.2.1
  have hstep_q2 : (Log.put_struct_child key t lg p).queued_struct_arrays =
      lg.queued_struct_arrays := by
    unfold Log.put_struct_child
    rw [(Log.set_structured_type_parts _ _ _).2.2.2.1]
    show ((lg.create_blank_field (key ++ "/" ++ p.1)
      LoggableType.empty).update_range_with_timestamp t).queued_struct_arrays = _
    rw [(Log.update_range_parts _ t).2.2.2.2]
    exact (lg.create_blank_field_parts _ _).2.2.2.1
  obtain ⟨ih1, ih2, ih3, ih4⟩ := put_struct_child_foldl key t rest (Log.put_struct_child key t lg p)
  exact ⟨ih1.trans hstep_gen, ih2.trans hstep_q1, ih3.trans hstep_q2,
    fun k' hk => (ih4 k' hk).trans (hstep_fields k' hk)⟩

-- === Claim C1 ===

/-- C1, counterexample: the claim's left-open bound `a < t` is violated
by the code.  A field with its single sample at timestamp 1 returns
that sample from `get_range(K, 1, 3)`, although `1 < 1` fails; the
source line is `if start <= timestamp <= end` (closed on both ends). -/
theorem get_range_left_endpoint_counterexample :
    (Log.put_number "/k" 1 10 {}).get_range "/k" 1 3 =
      some { timestamps := [1], values := [LogValue.num 10] } ∧ ¬ ((1 : Rat) < 1) :=
  ⟨rfl, by norm_num⟩

/-- C1, amended: for every key and bounds, `get_range(K, a, b)` returns
`none` when the key is absent, and otherwise exactly the stored samples
whose timestamp `t` satisfies `a ≤ t ≤ b` (closed interval on both
ends), in stored order — in particular an empty set when no sample
falls in the range. -/
theorem get_range_closed_interval (log : Log) (key : String) (a b : Rat) :
    (getAssoc key log.fields = none → log.get_range key a b = none) ∧
    (∀ f, getAssoc key log.fields = some f →
      f.data.timestamps.length = f.data.values.length →
      log.get_range key a b = some
        { timestamps := ((f.data.timestamps.zip f.data.values).filter
            (fun p => decide (a ≤ p.1 ∧ p.1 ≤ b))).map Prod.fst,
          values := ((f.data.timestamps.zip f.data.values).filter
            (fun p => decide (a ≤ p.1 ∧ p.1 ≤ b))).map Prod.snd }) := by
  constructor
  · intro h
    simp [Log.get_range, h]
  · intro f hf hlen
    simp [Log.get_range, hf, LogField.get_range,
      LogField.getRangeAux_eq_filter a b _ _ hlen]

/-- C1, witness: the amended theorem applied to a concrete one-sample
log. -/
theorem get_range_closed_interval_witness :
    (Log.put_number "/k" 1 10 {}).get_range "/k" 1 3 =
     some { timestamps := [1], values := [LogValue.num 10] } := by
  have h := (get_range_closed_interval (Log.put_number "/k" 1 10 {}) "/k" 1 3).2
    { type := LoggableType.number,
      data := { timestamps := [1], values := [LogValue.num 10] } } rfl rfl
  exact h.trans (by rfl)

-- === Claim C4 ===

/-- C4: a `put_<T>` call whose type differs from the field's registered
type never raises (it is the total update below), sets `type_warning`,
and leaves the field's type, timestamps and values unchanged — the
record update touches only `type_warning`.  In particular, after
`put_number("/k", 0.0, 1.0)` then `put_string("/k", 0.1, "x")` the
field `/k` has type Number, exactly the one sample `(0.0, 1.0)`, and
`type_warning = true`. -/
theorem type_conflict_drops_sample :
    (∀ (f : LogField) (op : FieldPut), op.ty ≠ f.type →
      op.apply f = { f with type_warning := true }) ∧
    (((Log.put_number "/k" 0 1 {}).put_string "/k" (1/10) "x").get_type "/k" =
        some LoggableType.number ∧
      (((Log.put_number "/k" 0 1 {}).put_string "/k" (1/10) "x").get_field "/k").map
          LogField.data = some { timestamps := [0], values := [LogValue.num 1] } ∧
      ((Log.put_number "/k" 0 1 {}).put_string "/k" (1/10) "x").get_type_warning "/k" = true) := by
  refine ⟨?_, rfl, rfl, rfl⟩
  intro f op h
  rw [FieldPut.apply_eq, if_pos (Ne.symm h)]

/-- C4, witness: the general conflict equation applied to a String
write against a fresh Number field. -/
theorem type_conflict_drops_sample_witness :
    (FieldPut.string 0 "x").apply (LogField.create LoggableType.number) =
      { LogField.create LoggableType.number with type_warning := true } :=
  type_conflict_drops_sample.1 (LogField.create LoggableType.number)
    (FieldPut.string 0 "x") (by decide)

-- === Claim C10 ===

lemma LogField.mem_insert_value_values (f : LogField) (t : Rat) (v : LogValue)
    (hlen : f.data.timestamps.length = f.data.values.length) :
    v ∈ (f.insert_value t v).data.values := by
  unfold LogField.insert_value
  have hle : LogField.insertIndex t f.data.timestamps ≤ f.data.values.length :=
    hlen ▸ LogField.insertIndex_le_length t f.data.timestamps
  exact (List.mem_insertIdx hle).mpr (Or.inl rfl)

/-- C10: `put_json` on a fresh key or an existing String-typed field
with a string that is not valid JSON (`json.loads` raises, modelled by
`decoded = none`) still stores the string as a sample, marks the key as
a generated parent, sets the structured type to `"JSON"`, creates no
child fields, and — being the total function below — raises no error. -/
theorem put_json_invalid_json (log : Log) (key : String) (t : Rat) (value : String)
    (hfresh : getAssoc key log.fields = none ∨
      ∃ f, getAssoc key log.fields = some f ∧ f.type = LoggableType.string ∧
        f.data.timestamps.length = f.data.values.length) :
    (∃ f', getAssoc key (log.put_json key t value none).fields = some f' ∧
      f'.type = LoggableType.string ∧
      f'.structured_type = some "JSON" ∧
      LogValue.str value ∈ f'.data.values) ∧
    (log.put_json key t value none).is_generated_parent key = true ∧
    (∀ k', (getAssoc k' (log.put_json key t value none).fields).isSome ↔
      (k' = key ∨ (getAssoc k' log.fields).isSome)) := by
  have hput := log.putField_getAssoc_self key t LoggableType.string
    (LogField.put_string t value)
  -- the field in place before the write, and the field written
  obtain ⟨f0, hf0, hty0, hlen0⟩ :
      ∃ f0, (getAssoc key log.fields).getD (LogField.create LoggableType.string) = f0 ∧
        f0.type = LoggableType.string ∧
        f0.data.timestamps.length = f0.data.values.length := by
    rcases hfresh with h | ⟨f, hf, hty, hlen⟩
    · exact ⟨_, by rw [h], rfl, rfl⟩
    · exact ⟨f, by rw [hf]; rfl, hty, hlen⟩
  rw [hf0] at hput
  have hput_string : f0.put_string t value = f0.insert_value t (LogValue.str value) := by
    unfold LogField.put_string
    rw [if_neg]
    simp [hty0]
  rw [hput_string] at hput
  have hty1 : (f0.insert_value t (LogValue.str value)).type = LoggableType.string := hty0
  have hstringput : Log.put_string key t value log =
      log.putField key t LoggableType.string (LogField.put_string t value) := rfl
  -- with an invalid payload, put_json is put_string plus the two markers
  have heq : log.put_json key t value none =
      ((log.put_string key t value).set_generated_parent key).set_structured_type
        key (some "JSON") := by
    unfold Log.put_json
    rw [hstringput]
    simp only [hput, hty1, if_pos]
  set log1 := log.putField key t LoggableType.string (LogField.put_string t value) with hlog1
  have hmem := f0.mem_insert_value_values t (LogValue.str value) hlen0
  have hs2 := (log1.set_generated_parent key).set_structured_type_getAssoc_self key (some "JSON")
  have hg1 : (log1.set_generated_parent key).fields = log1.fields :=
    (log1.set_generated_parent_parts key).1
  refine ⟨⟨{ f0.insert_value t (LogValue.str value) with structured_type := some "JSON" },
      ?_, hty1, rfl, hmem⟩, ?_, ?_⟩
  · rw [heq, hstringput, hs2, hg1, hput]
    rfl
  · rw [heq]
    unfold Log.is_generated_parent
    have hmemg : key ∈ (log1.set_generated_parent key).generated_parents :=
      (log1.set_generated_parent_parts key).2.2.2.2
    have hpres := ((log1.set_generated_parent key).set_structured_type_parts
      key (some "JSON")).1
    rw [hstringput, hpres]
    exact decide_eq_true hmemg
  · intro k'
    by_cases hk : k' = key
    · subst hk
      rw [heq, hstringput, hs2, hg1, hput]
      simp
    · rw [heq, hstringput,
        (log1.set_generated_parent key).set_structured_type_getAssoc_ne key k' _ hk, hg1,
        hlog1, log.putField_getAssoc_ne key k' t _ _ hk]
      simp [hk]

/-- C10, witness: an invalid JSON payload on a fresh key. -/
theorem put_json_invalid_json_witness :
    (∃ f', getAssoc "/j" (Log.put_json "/j" 2 "not json" none {}).fields = some f' ∧
      f'.type = LoggableType.string ∧
      f'.structured_type = some "JSON" ∧
      LogValue.str "not json" ∈ f'.data.values) ∧
    (Log.put_json "/j" 2 "not json" none {}).is_generated_parent "/j" = true ∧
    (∀ k', (getAssoc k' (Log.put_json "/j" 2 "not json" none {}).fields).isSome ↔
      (k' = "/j" ∨ (getAssoc k' ({} : Log).fields).isSome)) :=
  put_json_invalid_json {} "/j" 2 "not json" (Or.inl rfl)

-- === Claim C2 ===

/-- Everything before the insertion point found by the
`_insert_value` search loop is at most the new timestamp. -/
lemma LogField.insertIndex_take_le (t : Rat) :
    ∀ l : List Rat, ∀ x ∈ l.take (LogField.insertIndex t l), x ≤ t
| [] => by simp [LogField.insertIndex]
| a :: as => by
  intro x hx
  by_cases h : a > t
  · rw [show LogField.insertIndex t (a :: as) = 0 from by
      rw [LogField.insertIndex, if_pos h]] at hx
    simp at hx
  · rw [show LogField.insertIndex t (a :: as) = LogField.insertIndex t as + 1 from by
      rw [LogField.insertIndex, if_neg h]] at hx
    rw [List.take_succ_cons] at hx
    rcases List.mem_cons.mp hx with hxa | hxr
    · rw [hxa]
      exact le_of_not_lt h
    · exact LogField.insertIndex_take_le t as x hxr

/-- Everything from the insertion point onward (in a sorted list) is
strictly greater than the new timestamp. -/
lemma LogField.insertIndex_drop_gt (t : Rat) :
    ∀ l : List Rat, l.Pairwise (· ≤ ·) →
      ∀ x ∈ l.drop (LogField.insertIndex t l), t < x
| [] => by simp [LogField.insertIndex]
| a :: as => by
  intro hp x hx
  by_cases h : a > t
  · rw [show LogField.insertIndex t (a :: as) = 0 from by
      rw [LogField.insertIndex, if_pos h]] at hx
    rcases List.mem_cons.mp (by simpa using hx) with hxa | hxr
    · rw [hxa]; exact h
    · exact lt_of_lt_of_le h (List.rel_of_pairwise_cons hp hxr)
  · rw [show LogField.insertIndex t (a :: as) = LogField.insertIndex t as + 1 from by
      rw [LogField.insertIndex, if_neg h]] at hx
    exact LogField.insertIndex_drop_gt t as hp.of_cons x (by simpa using hx)

/-- `insertIdx` within bounds is take-cons-drop. -/
lemma insertIdxSplit {α : Type} (a : α) :
    ∀ (n : Nat) (l : List α), n ≤ l.length →
      l.insertIdx n a = l.take n ++ a :: l.drop n
| 0, l, _ => by simp
| n + 1, [], h => by simp at h
| n + 1, x :: xs, h => by
  rw [List.insertIdx_succ_cons, insertIdxSplit a n xs (by simpa using h)]
  simp

/-- `map` commutes with `insertIdx`. -/
lemma mapInsertIdx {α β : Type} (f : α → β) (a : α) :
    ∀ (n : Nat) (l : List α), (l.insertIdx n a).map f = (l.map f).insertIdx n (f a)
| 0, l => by simp
| n + 1, [] => by simp
| n + 1, x :: xs => by
  rw [List.insertIdx_succ_cons, List.map_cons, List.map_cons, List.insertIdx_succ_cons,
    mapInsertIdx f a n xs]

lemma LogField.insert_value_data (f : LogField) (t : Rat) (v : LogValue) :
    (f.insert_value t v).data = insertData t v f.data := rfl

/-- One `_insert_value` step preserves the ghost simulation: the new
sample lands after every stored sample with timestamp ≤ t and before
every strictly later one. -/
lemma ghost_step (t : Rat) (v : LogValue) (k : Nat) (g : List (Rat × LogValue × Nat))
    (d : LogValueSet) (h : GhostInv g d k) :
    GhostInv (ghostInsert (t, v, k) g) (insertData t v d) (k + 1) := by
  obtain ⟨h1, h2, h3, h4⟩ := h
  have hlen : LogField.insertIndex t (g.map (fun p => p.1)) ≤ g.length := by
    have := LogField.insertIndex_le_length t (g.map (fun p => p.1))
    simpa using this
  have hsorted : (g.map (fun p => p.1)).Pairwise (· ≤ ·) :=
    h3.map _ (fun a b hab => by
      rcases hab with hlt | ⟨heq2, _⟩
      · exact le_of_lt hlt
      · exact le_of_eq heq2)
  set i := LogField.insertIndex t (g.map (fun p => p.1)) with hi
  have hidx : LogField.insertIndex t d.timestamps = i := by rw [h1]
  refine ⟨?_, ?_, ?_, ?_⟩
  · show d.timestamps.insertIdx (LogField.insertIndex t d.timestamps) t = _
    rw [hidx, h1]
    unfold ghostInsert
    rw [mapInsertIdx]
  · show d.values.insertIdx (LogField.insertIndex t d.timestamps) v = _
    rw [hidx, h2]
    unfold ghostInsert
    rw [mapInsertIdx]
  · unfold ghostInsert
    rw [← hi, insertIdxSplit _ i g hlen]
    have hg : g = g.take i ++ g.drop i := (List.take_append_drop i g).symm
    have hg3 : (g.take i ++ g.drop i).Pairwise ghostLex := by rw [← hg]; exact h3
    obtain ⟨hpt, hpd, hcross⟩ := List.pairwise_append.mp hg3
    have htakele : ∀ e ∈ g.take i, e.1 ≤ t := by
      intro e he
      have : e.1 ∈ (g.map (fun p => p.1)).take i := by
        rw [← List.map_take]
        exact List.mem_map_of_mem _ he
      exact LogField.insertIndex_take_le t (g.map (fun p => p.1)) e.1 this
    have hdropgt : ∀ e ∈ g.drop i, t < e.1 := by
      intro e he
      have : e.1 ∈ (g.map (fun p => p.1)).drop i := by
        rw [← List.map_drop]
        exact List.mem_map_of_mem _ he
      exact LogField.insertIndex_drop_gt t (g.map (fun p => p.1)) hsorted e.1 this
    refine List.pairwise_append.mpr ⟨hpt, ?_, ?_⟩
    · refine List.pairwise_cons.mpr ⟨fun b hb => Or.inl (hdropgt b hb), hpd⟩
    · intro e he b hb
      rcases List.mem_cons.mp hb with hbe | hbd
      · rcases lt_or_eq_of_le (htakele e he) with hlt | heq
        · rw [hbe]
          exact Or.inl hlt
        · rw [hbe]
          exact Or.inr ⟨heq, h4 e (by rw [hg]; exact List.mem_append_left _ he)⟩
      · exact hcross e he b hbd
  · intro e he
    unfold ghostInsert at he
    rw [← hi] at he
    rcases (List.mem_insertIdx (by simpa using hlen)).mp he with hek | heg
    · rw [hek]
      exact Nat.lt_succ_self k
    · exact Nat.lt_succ_of_lt (h4 e heg)

/-- The ghost simulation follows a whole run of accepted samples. -/
lemma ghost_run_inv :
    ∀ (samples : List (Rat × LogValue)) (k : Nat) (g : List (Rat × LogValue × Nat))
      (d : LogValueSet), GhostInv g d k →
      GhostInv (ghostRun k samples g)
        (samples.foldl (fun d tv => insertData tv.1 tv.2 d) d) (k + samples.length)
| [], k, g, d, h => by simpa using h
| tv :: rest, k, g, d, h => by
  have hstep := ghost_step tv.1 tv.2 k g d h
  have hrec := ghost_run_inv rest (k + 1) (ghostInsert (tv.1, tv.2, k) g)
    (insertData tv.1 tv.2 d) hstep
  simp only [ghostRun, List.foldl_cons, List.length_cons]
  have hlen : k + 1 + rest.length = k + (rest.length + 1) := by omega
  rw [← hlen]
  exact hrec

/-- A put sequence acts on a field's data exactly as the fold of
`_insert_value` over the accepted samples, and never changes the
type. -/
lemma applyFieldPuts_data :
    ∀ (ops : List FieldPut) (f : LogField),
      (applyFieldPuts ops f).data =
        (acceptedSamples f.type ops).foldl (fun d tv => insertData tv.1 tv.2 d) f.data ∧
      (applyFieldPuts ops f).type = f.type
| [], f => ⟨rfl, rfl⟩
| op :: ops, f => by
  have hfold : applyFieldPuts (op :: ops) f = applyFieldPuts ops (op.apply f) := rfl
  by_cases h : op.ty = f.type
  · have happ : op.apply f = f.insert_value op.ts op.val := by
      rw [FieldPut.apply_eq, if_neg]
      simp [h]
    have hty : (op.apply f).type = f.type := by rw [happ]; rfl
    have hacc : acceptedSamples f.type (op :: ops) =
        (op.ts, op.val) :: acceptedSamples f.type ops := by
      unfold acceptedSamples
      simp [List.filter_cons, h]
    have ih := applyFieldPuts_data ops (op.apply f)
    rw [hfold]
    constructor
    · rw [ih.1, hty, hacc, List.foldl_cons, happ, LogField.insert_value_data]
    · rw [ih.2, hty]
  · have happ : op.apply f = { f with type_warning := true } := by
      rw [FieldPut.apply_eq, if_pos (fun hh => h hh.symm)]
    have hty : (op.apply f).type = f.type := by rw [happ]
    have hacc : acceptedSamples f.type (op :: ops) = acceptedSamples f.type ops := by
      unfold acceptedSamples
      simp [List.filter_cons, h]
    have ih := applyFieldPuts_data ops (op.apply f)
    rw [hfold]
    constructor
    · rw [ih.1, hty, hacc, happ]
    · rw [ih.2, hty]

/-- C2: after any finite sequence of `put_<T>` calls on a fresh field
of type `ty`, the stored columns are exactly the accepted samples
arranged by the ghost run — sorted by timestamp with equal timestamps
kept in arrival order (the ghost's `Pairwise ghostLex` makes the
arrival indices increase within every equal-timestamp run) — and in
particular the timestamps list is non-decreasing. -/
theorem put_sequence_sorted_stable (ty : LoggableType) (ops : List FieldPut) :
    (applyFieldPuts ops (LogField.create ty)).data.timestamps =
      (ghostRun 0 (acceptedSamples ty ops) []).map (fun e => e.1) ∧
    (applyFieldPuts ops (LogField.create ty)).data.values =
      (ghostRun 0 (acceptedSamples ty ops) []).map (fun e => e.2.1) ∧
    List.Pairwise ghostLex (ghostRun 0 (acceptedSamples ty ops) []) ∧
    List.Pairwise (· ≤ ·) (applyFieldPuts ops (LogField.create ty)).data.timestamps := by
  have hinv0 : GhostInv [] (LogField.create ty).data 0 :=
    ⟨rfl, rfl, List.Pairwise.nil, by simp⟩
  have hrun := ghost_run_inv (acceptedSamples ty ops) 0 [] (LogField.create ty).data hinv0
  have happ := applyFieldPuts_data ops (LogField.create ty)
  have hdata : (applyFieldPuts ops (LogField.create ty)).data =
      (acceptedSamples ty ops).foldl (fun d tv => insertData tv.1 tv.2 d)
        (LogField.create ty).data := happ.1
  obtain ⟨r1, r2, r3, _⟩ := hrun
  refine ⟨by rw [hdata, r1], by rw [hdata, r2], r3, ?_⟩
  rw [hdata, r1]
  exact r3.map _ (fun a b hab => by
    rcases hab with hlt | ⟨heq2, _⟩
    · exact le_of_lt hlt
    · exact le_of_eq heq2)

-- === Claim C3 ===

/-- Every element the `clear_before_time` loop drops is below the
cutoff (on a sorted field). -/
lemma clearDrop_take_lt (t : Rat) :
    ∀ l : List Rat, l.Pairwise (· ≤ ·) →
      ∀ x ∈ l.take (LogField.clearDropCount t l), x < t
| [] => by simp [LogField.clearDropCount]
| [a] => by simp [LogField.clearDropCount]
| a :: b :: rest => by
  intro hp x hx
  by_cases hb : b < t
  · rw [show LogField.clearDropCount t (a :: b :: rest) =
      LogField.clearDropCount t (b :: rest) + 1 from by
        rw [LogField.clearDropCount, if_pos hb]] at hx
    rw [List.take_succ_cons] at hx
    rcases List.mem_cons.mp hx with hxa | hxr
    · subst hxa
      exact lt_of_le_of_lt (List.rel_of_pairwise_cons hp (List.mem_cons_self b rest)) hb
    · exact clearDrop_take_lt t (b :: rest) hp.of_cons x hxr
  · rw [show LogField.clearDropCount t (a :: b :: rest) = 0 from by
      rw [LogField.clearDropCount, if_neg hb]] at hx
    simp at hx

/-- Every element after the first retained one is at or above the
cutoff (on a sorted field). -/
lemma clearDrop_dropTail_ge (t : Rat) :
    ∀ l : List Rat, l.Pairwise (· ≤ ·) →
      ∀ x ∈ (l.drop (LogField.clearDropCount t l)).tail, ¬ x < t
| [] => by simp [LogField.clearDropCount]
| [a] => by simp [LogField.clearDropCount]
| a :: b :: rest => by
  intro hp x hx
  by_cases hb : b < t
  · rw [show LogField.clearDropCount t (a :: b :: rest) =
      LogField.clearDropCount t (b :: rest) + 1 from by
        rw [LogField.clearDropCount, if_pos hb]] at hx
    exact clearDrop_dropTail_ge t (b :: rest) hp.of_cons x (by simpa using hx)
  · rw [show LogField.clearDropCount t (a :: b :: rest) = 0 from by
      rw [LogField.clearDropCount, if_neg hb]] at hx
    simp only [List.drop_zero, List.tail_cons] at hx
    rcases List.mem_cons.mp hx with hxb | hxr
    · subst hxb
      exact hb
    · intro hlt
      exact hb (lt_of_le_of_lt (List.rel_of_pairwise_cons hp.of_cons hxr) hlt)

/-- `LogField.clear_before_time` on a sorted field: nothing below `t`
remains; the retained samples are a suffix of the stored values; every
dropped timestamp was below `t`; and the timestamps are the same suffix
except that a first entry below `t` is rewritten to exactly `t` and was
the largest timestamp below `t`. -/
lemma LogField.clear_before_time_spec_field (f : LogField) (t : Rat)
    (hp : f.data.timestamps.Pairwise (· ≤ ·)) :
    (∀ s ∈ (f.clear_before_time t).data.timestamps, ¬ s < t) ∧
    (∃ k, (f.clear_before_time t).data.values = f.data.values.drop k ∧
      (∀ x ∈ f.data.timestamps.take k, x < t) ∧
      ((f.clear_before_time t).data.timestamps = f.data.timestamps.drop k ∨
        (∃ h rest, f.data.timestamps.drop k = h :: rest ∧ h < t ∧
          (f.clear_before_time t).data.timestamps = t :: rest ∧
          ∀ x ∈ f.data.timestamps, x < t → x ≤ h))) := by
  set k := LogField.clearDropCount t f.data.timestamps with hk
  have htail := clearDrop_dropTail_ge t f.data.timestamps hp
  have htake := clearDrop_take_lt t f.data.timestamps hp
  have hclear : (f.clear_before_time t).data.timestamps =
      (match f.data.timestamps.drop k with
       | [] => ([] : List Rat)
       | x :: rest => if x < t then t :: rest else x :: rest) ∧
      (f.clear_before_time t).data.values = f.data.values.drop k := by
    unfold LogField.clear_before_time
    exact ⟨rfl, rfl⟩
  -- the largest-below-t property of the head of the retained suffix
  have hmax : ∀ h rest, f.data.timestamps.drop k = h :: rest →
      ∀ x ∈ f.data.timestamps, x < t → x ≤ h := by
    intro h rest hdrop x hx hxlt
    have hsplit := List.take_append_drop k f.data.timestamps
    have hp2 : (f.data.timestamps.take k ++ f.data.timestamps.drop k).Pairwise (· ≤ ·) := by
      rw [hsplit]; exact hp
    have hcross := (List.pairwise_append.mp hp2).2.2
    rw [← hsplit] at hx
    rcases List.mem_append.mp hx with hxtake | hxdrop
    · exact hcross x hxtake h (by rw [hdrop]; exact List.mem_cons_self h rest)
    · rw [hdrop] at hxdrop
      rcases List.mem_cons.mp hxdrop with hxh | hxr
      · exact le_of_eq hxh
      · exact absurd hxlt (htail x (by rw [hdrop]; simpa using hxr))
  constructor
  · intro s hs
    cases hdrop : f.data.timestamps.drop k with
    | nil =>
      rw [hclear.1, hdrop] at hs
      simp at hs
    | cons x rest =>
      have hts : (f.clear_before_time t).data.timestamps =
          if x < t then t :: rest else x :: rest := by
        rw [hclear.1, hdrop]
      rw [hts] at hs
      by_cases hx : x < t
      · rw [if_pos hx] at hs
        rcases List.mem_cons.mp hs with hst | hsr
        · simp [hst]
        · exact htail s (by rw [hdrop]; simpa using hsr)
      · rw [if_neg hx] at hs
        rcases List.mem_cons.mp hs with hst | hsr
        · rw [hst]; exact hx
        · exact htail s (by rw [hdrop]; simpa using hsr)
  · refine ⟨k, hclear.2, htake, ?_⟩
    cases hdrop : f.data.timestamps.drop k with
    | nil =>
      left
      rw [hclear.1, hdrop]
    | cons x rest =>
      have hts : (f.clear_before_time t).data.timestamps =
          if x < t then t :: rest else x :: rest := by
        rw [hclear.1, hdrop]
      by_cases hx : x < t
      · right
        exact ⟨x, rest, rfl, hx, by rw [hts, if_pos hx],
          fun y hy hylt => hmax x rest hdrop y hy hylt⟩
      · left
        simp [hts, hx, hdrop]

/-- C3: `clear_before_time(t)` on a log whose fields are sorted: the
tracked range starts at or after `t`; every field's samples are cleared
exactly as in `LogField.clear_before_time_spec_field` — no sample below
`t` survives, the values become a suffix of the old values whose
dropped prefix was entirely below `t`, and at most the first retained
sample (the most recent one before `t`) is rewritten to exactly `t`. -/
theorem clear_before_time_spec (log : Log) (t : Rat)
    (hsorted : ∀ p ∈ log.fields, List.Pairwise (· ≤ ·) p.2.data.timestamps) :
    (∃ s e, (log.clear_before_time t).timestamp_range = some (s, e) ∧ t ≤ s) ∧
    ((log.clear_before_time t).fields =
      log.fields.map (fun p => (p.1, p.2.clear_before_time t))) ∧
    (∀ p ∈ log.fields,
      (∀ s ∈ (p.2.clear_before_time t).data.timestamps, ¬ s < t) ∧
      (∃ k, (p.2.clear_before_time t).data.values = p.2.data.values.drop k ∧
        (∀ x ∈ p.2.data.timestamps.take k, x < t) ∧
        ((p.2.clear_before_time t).data.timestamps = p.2.data.timestamps.drop k ∨
          (∃ h rest, p.2.data.timestamps.drop k = h :: rest ∧ h < t ∧
            (p.2.clear_before_time t).data.timestamps = t :: rest ∧
            ∀ x ∈ p.2.data.timestamps, x < t → x ≤ h)))) := by
  refine ⟨?_, rfl, fun p hp => LogField.clear_before_time_spec_field p.2 t (hsorted p hp)⟩
  cases hr : log.timestamp_range with
  | none => exact ⟨t, t, by simp [Log.clear_before_time, hr], le_rfl⟩
  | some se =>
    rcases se with ⟨s, e⟩
    by_cases hs : s < t
    · exact ⟨t, max t e, by simp [Log.clear_before_time, hr, hs], le_rfl⟩
    · exact ⟨s, e, by simp [Log.clear_before_time, hr, hs], le_of_not_lt hs⟩

/-- C3, witness: clearing a three-sample sorted field at `t = 2` keeps
the suffix and rewrites the retained head `1` to `2`. -/
theorem clear_before_time_spec_witness :
    ∃ s e, (Log.clear_before_time 2 sampleSortedLog).timestamp_range = some (s, e) ∧
      (2 : Rat) ≤ s :=
  (clear_before_time_spec sampleSortedLog 2 (by decide)).1

-- === Claim C5 ===

lemma Log.putField_keys (log : Log) (key : String) (t : Rat) (ty : LoggableType)
    (fput : LogField → LogField) :
    ∀ k', (getAssoc k' (log.putField key t ty fput).fields).isSome ↔
      (k' = key ∨ (getAssoc k' log.fields).isSome) := by
  intro k'
  by_cases hk : k' = key
  · subst hk
    rw [log.putField_getAssoc_self k' t ty fput]
    simp
  · rw [log.putField_getAssoc_ne key k' t ty fput hk]
    simp [hk]

/-- C5, counterexample: on a fresh key with no schema compiled,
decoding fails (schema missing) yet `put_struct` has already set the
structured type and marked the generated parent — contradicting the
claim's "only when struct decoding succeeds"; and on a key holding a
Number field the raw payload is not stored at all — contradicting
"always stores the raw payload". -/
theorem put_struct_marks_despite_failed_decode :
    StructDecoder.decode 1 ({} : StructDecoder).schemas "MyStruct" [1, 2, 3, 4] none = none ∧
    (Log.put_struct "/s" 0 [1, 2, 3, 4] "MyStruct" false {}).get_structured_type "/s" =
      some "MyStruct" ∧
    (Log.put_struct "/s" 0 [1, 2, 3, 4] "MyStruct" false {}).is_generated_parent "/s" = true ∧
    (((Log.put_number "/n" 0 7 {}).put_struct "/n" 1 [9, 9] "T" false).get_field "/n").map
      LogField.data = some { timestamps := [0], values := [LogValue.num 7] } :=
  ⟨rfl, rfl, rfl, rfl⟩

/-- C5, amended: `put_struct(key, t, payload, T, is_array)` stores the
raw payload at `key` whenever the field (after registration) has RAW
type — a conflicting pre-existing type drops the payload instead — and
in the RAW case it marks `key` as a generated parent and sets the
structured type to `"T"`/`"T[]"` regardless of whether decoding
succeeds; when decoding fails (e.g. schema missing) the field keeps
only the opaque raw bytes, no other field is created, and the payload
is queued on the struct (or struct-array) queue so a later schema
arrival can retry. -/
theorem put_struct_amended (log : Log) (key : String) (t : Rat) (value : List Nat)
    (ty : String) (ia : Bool) :
    (∀ f, getAssoc key log.fields = some f → f.type ≠ LoggableType.raw →
      log.put_struct key t value ty ia = log.put_raw key t value ∧
      getAssoc key (log.put_raw key t value).fields = some { f with type_warning := true }) ∧
    (∀ f0, (getAssoc key log.fields).getD (LogField.create LoggableType.raw) = f0 →
      f0.type = LoggableType.raw →
      f0.data.timestamps.length = f0.data.values.length →
      (log.put_struct key t value ty ia).get_structured_type key =
        some (ty ++ (if ia then "[]" else "")) ∧
      (log.put_struct key t value ty ia).is_generated_parent key = true ∧
      (∃ f', getAssoc key (log.put_struct key t value ty ia).fields = some f' ∧
        LogValue.raw value ∈ f'.data.values) ∧
      ((if ia then
          StructDecoder.decode_array (log.struct_decoder.schemas.length + 1)
            log.struct_decoder.schemas ty value none
        else
          StructDecoder.decode (log.struct_decoder.schemas.length + 1)
            log.struct_decoder.schemas ty value none) = none →
        (if ia then
          (log.put_struct key t value ty ia).queued_struct_arrays =
            log.queued_struct_arrays ++ [⟨key, t, value, ty⟩] ∧
          (log.put_struct key t value ty ia).queued_structs = log.queued_structs
        else
          (log.put_struct key t value ty ia).queued_structs =
            log.queued_structs ++ [⟨key, t, value, ty⟩] ∧
          (log.put_struct key t value ty ia).queued_struct_arrays =
            log.queued_struct_arrays) ∧
        (∀ k', (getAssoc k' (log.put_struct key t value ty ia).fields).isSome ↔
          (k' = key ∨ (getAssoc k' log.fields).isSome)))) := by
  have hrawput : Log.put_raw key t value log =
      log.putField key t LoggableType.raw (LogField.put_raw t value) := rfl
  have hput := log.putField_getAssoc_self key t LoggableType.raw (LogField.put_raw t value)
  constructor
  · intro f hf hty
    simp only [hf, Option.getD_some] at hput
    have hfput : f.put_raw t value = { f with type_warning := true } := by
      unfold LogField.put_raw
      rw [if_pos hty]
    rw [hfput] at hput
    constructor
    · unfold Log.put_struct
      rw [hrawput]
      simp only [hput]
      rw [if_neg]
      exact hty
    · rw [hrawput, hput]
  · intro f0 hf0 hty0 hlen0
    rw [hf0] at hput
    have hfput : f0.put_raw t value = f0.insert_value t (LogValue.raw value) := by
      unfold LogField.put_raw
      rw [if_neg]
      simp [hty0]
    rw [hfput] at hput
    set f1 := f0.insert_value t (LogValue.raw value) with hf1
    have hty1 : f1.type = LoggableType.raw := hty0
    have hmem : LogValue.raw value ∈ f1.data.values :=
      f0.mem_insert_value_values t (LogValue.raw value) hlen0
    set log1 := log.putField key t LoggableType.raw (LogField.put_raw t value) with hlog1
    set log2 := log1.set_generated_parent key with hlog2
    set log3 := log2.set_structured_type key (some (ty ++ (if ia then "[]" else ""))) with hlog3
    -- the intermediate state's components
    have h3sd : log3.struct_decoder = log.struct_decoder := by
      rw [hlog3, (log2.set_structured_type_parts key _).2.1, hlog2]
      show log1.struct_decoder = _
      rw [hlog1, (log.putField_parts key t _ _).2.2.1]
    have h3q1 : log3.queued_structs = log.queued_structs := by
      rw [hlog3, (log2.set_structured_type_parts key _).2.2.1, hlog2]
      show log1.queued_structs = _
      rw [hlog1, (log.putField_parts key t _ _).2.2.2.1]
    have h3q2 : log3.queued_struct_arrays = log.queued_struct_arrays := by
      rw [hlog3, (log2.set_structured_type_parts key _).2.2.2.1, hlog2]
      show log1.queued_struct_arrays = _
      rw [hlog1, (log.putField_parts key t _ _).2.2.2.2]
    have h3gen : key ∈ log3.generated_parents := by
      rw [hlog3, (log2.set_structured_type_parts key _).1, hlog2]
      exact (log1.set_generated_parent_parts key).2.2.2.2
    have h3at : getAssoc key log3.fields =
        some { f1 with structured_type := some (ty ++ (if ia then "[]" else "")) } := by
      rw [hlog3, Log.set_structured_type_getAssoc_self, hlog2,
        (log1.set_generated_parent_parts key).1, hput]
      rfl
    have h3ne : ∀ k', k' ≠ key → getAssoc k' log3.fields = getAssoc k' log.fields := by
      intro k' hk
      rw [hlog3, Log.set_structured_type_getAssoc_ne _ _ _ _ hk, hlog2,
        (log1.set_generated_parent_parts key).1, hlog1,
        log.putField_getAssoc_ne key k' t _ _ hk]
    -- reduce put_struct to the branch on the decode outcome
    have hstructeq : log.put_struct key t value ty ia =
        (match (if ia then
            StructDecoder.decode_array (log.struct_decoder.schemas.length + 1)
              log.struct_decoder.schemas ty value none
          else
            StructDecoder.decode (log.struct_decoder.schemas.length + 1)
              log.struct_decoder.schemas ty value none) with
         | some dd =>
            dd.schema_types.foldl (fun lg p => Log.put_struct_child key t lg p)
              (log3.put_unknown_struct key t dd.data false)
         | none =>
            if ia then
              { log3 with queued_struct_arrays :=
                  log3.queued_struct_arrays ++ [⟨key, t, value, ty⟩] }
            else
              { log3 with queued_structs :=
                  log3.queued_structs ++ [⟨key, t, value, ty⟩] }) := by
      unfold Log.put_struct
      rw [hrawput]
      simp only [hput, hty1, if_pos]
      rw [← hlog2, ← hlog3, h3sd]
    -- the key's binding and side components survive both branches
    have hfinal_at : getAssoc key (log.put_struct key t value ty ia).fields =
        some { f1 with structured_type := some (ty ++ (if ia then "[]" else "")) } := by
      rw [hstructeq]
      cases hdec : (if ia then
          StructDecoder.decode_array (log.struct_decoder.schemas.length + 1)
            log.struct_decoder.schemas ty value none
        else
          StructDecoder.decode (log.struct_decoder.schemas.length + 1)
            log.struct_decoder.schemas ty value none) with
      | none =>
        cases ia <;> simpa using h3at
      | some dd =>
        have hfold := (put_struct_child_foldl key t dd.schema_types
          (log3.put_unknown_struct key t dd.data false)).2.2.2 key le_rfl
        have hpre := (put_unknown_struct_preserve dd.data key t false log3).2 key (by simp)
        simp only [hfold, hpre]
        exact h3at
    have hfinal_gen : key ∈ (log.put_struct key t value ty ia).generated_parents := by
      rw [hstructeq]
      cases hdec : (if ia then
          StructDecoder.decode_array (log.struct_decoder.schemas.length + 1)
            log.struct_decoder.schemas ty value none
        else
          StructDecoder.decode (log.struct_decoder.schemas.length + 1)
            log.struct_decoder.schemas ty value none) with
      | none =>
        cases ia <;> simpa using h3gen
      | some dd =>
        have hfold := (put_struct_child_foldl key t dd.schema_types
          (log3.put_unknown_struct key t dd.data false)).1
        have hpre := (put_unknown_struct_preserve dd.data key t false log3).1.1
        simp only [hfold, hpre]
        exact h3gen
    refine ⟨?_, ?_, ⟨_, hfinal_at, hmem⟩, ?_⟩
    · unfold Log.get_structured_type
      rw [hfinal_at]
    · unfold Log.is_generated_parent
      exact decide_eq_true hfinal_gen
    · intro hfail
      rw [hstructeq, hfail]
      cases ia with
      | true =>
        refine ⟨⟨by simp [h3q2], by simp [h3q1]⟩, ?_⟩
        intro k'
        by_cases hk : k' = key
        · subst hk
          simp [h3at]
        · simp [hk, h3ne k' hk]
      | false =>
        refine ⟨⟨by simp [h3q1], by simp [h3q2]⟩, ?_⟩
        intro k'
        by_cases hk : k' = key
        · subst hk
          simp [h3at]
        · simp [hk, h3ne k' hk]

/-- C5, witness: a fresh key with an uncompiled schema name exercises
the failing-decode branch of the amended theorem. -/
theorem put_struct_amended_witness :
    (Log.put_struct "/s" 0 [1, 2, 3, 4] "MyStruct" false {}).get_structured_type "/s" =
      some "MyStruct" ∧
    (Log.put_struct "/s" 0 [1, 2, 3, 4] "MyStruct" false {}).is_generated_parent "/s" = true ∧
    (∃ f', getAssoc "/s" (Log.put_struct "/s" 0 [1, 2, 3, 4] "MyStruct" false {}).fields =
      some f' ∧ LogValue.raw [1, 2, 3, 4] ∈ f'.data.values) := by
  have h := ((put_struct_amended {} "/s" 0 [1, 2, 3, 4] "MyStruct" false).2
    (LogField.create LoggableType.raw) rfl rfl rfl)
  exact ⟨by simpa using h.1, h.2.1, h.2.2.1⟩

-- === Claim C8 ===

/-- C8: every data record whose entry name contains `.schema` makes the
ingestion branch raise (an `IndexError` when the name has no
`struct:`, otherwise an `AttributeError` for the missing
`DataLogRecord.getBytes`), so the schema is never registered and the
ingestion of the log file aborts instead of continuing. -/
theorem schema_record_branch_always_raises (name : String) (r : DataLogRecord)
    (st : StructDecoder) (h : strContainsSub name ".schema" = true) :
    ∃ e, processSchemaBranch name r st = Except.error e := by
  unfold processSchemaBranch
  rw [h]
  cases (splitOnL "struct:".data name.data).get? 1 <;> exact ⟨_, rfl⟩

/-- C8, witness: the failing branch at the concrete schema entry name
`NT:/.schema/struct:MyStruct`. -/
theorem schema_record_branch_always_raises_witness :
    ∃ e, processSchemaBranch "NT:/.schema/struct:MyStruct" ⟨1, 0, [105, 110]⟩ {} =
      Except.error e :=
  schema_record_branch_always_raises "NT:/.schema/struct:MyStruct" ⟨1, 0, [105, 110]⟩ {} (by decide)

-- === Claim C7 ===

/-- C7: compiling `"bool a:1; bool b:1; uint8 c;"` packs the two bool
bitfields LSB-first into one shared 8-bit unit with bit ranges (0,1)
and (1,2), places `c` at bits 8..16, gives total length 16 bits, and
decoding the payload `[0b00000011, 0x2A]` yields
`a = true, b = true, c = 42`. -/
theorem bool_bitfield_layout_and_decode :
    (StructDecoder.add_schema "MyStruct" "bool a:1; bool b:1; uint8 c;" {}).map
      (fun st =>
        ((getAssoc "MyStruct" st.schemas).map Schema.length,
         (getAssoc "MyStruct" st.schemas).map (fun sch => sch.value_schemas.map ValueSchema.bit_range),
         StructDecoder.decode (st.schemas.length + 1) st.schemas "MyStruct" [3, 42] none)) =
    some (some 16, some [(0, 1), (1, 2), (8, 16)],
      some { data := PyValue.dictV
               [("a", PyValue.boolV true), ("b", PyValue.boolV true), ("c", PyValue.intV 42)],
             schema_types := [] }) := by
  rfl

-- === Claim C9 (counterexample) ===

/-- C9, counterexample: in the schema declaration
`enum{x=-1,y=2} int8 v;` the pair `x=-1` has an integer right-hand
side, yet only `2 -> y` reaches the enum map: `str.isdigit()` rejects
the leading minus sign, so negative integers are ignored, contradicting
the claim that every integer right-hand side (including negative ones)
is added. -/
theorem enum_negative_rhs_counterexample :
    (StructDecoder.compile_schema [] "enum\x7bx=-1,y=2\x7d int8 v;").map
      (Option.map (fun sch => sch.value_schemas.map ValueSchema.enum)) =
      some (some [some [(2, "y")]]) ∧
    ((-1 : Int), "x") ∉ ([(2, "y")] : List (Int × String)) :=
  ⟨rfl, by decide⟩

/-- C9, amended: an enum pair `NAME=RHS` is added to the enum map —
mapping `int(RHS)` to `NAME` — exactly when `RHS` is a non-empty string
of decimal digits (a non-negative integer literal); every other
right-hand side, in particular every negative integer (its leading
minus sign is not a digit), is ignored. -/
theorem enum_pair_digits_only (m : List (Int × String)) (p nm rhs : List Char)
    (hsplit : splitOnL ['='] p = [nm, rhs]) :
    (isDigitsL rhs = true →
      StructDecoder.enumPairStep m p =
        setAssoc ((digitsToNat rhs : Nat) : Int) (String.mk nm) m) ∧
    (isDigitsL rhs = false → StructDecoder.enumPairStep m p = m) ∧
    (∀ ds : List Char, isDigitsL ('-' :: ds) = false) := by
  refine ⟨?_, ?_, ?_⟩
  · intro h
    unfold StructDecoder.enumPairStep
    rw [hsplit]
    simp [h]
  · intro h
    unfold StructDecoder.enumPairStep
    rw [hsplit]
    simp [h]
  · intro ds
    simp [isDigitsL, Char.isDigit]

/-- C9, witness: the pair `y=2` is added as `2 -> y`; the pair `x=-1`
is ignored because `-1` is not a digit string. -/
theorem enum_pair_digits_only_witness :
    StructDecoder.enumPairStep [] ("y=2".data) = [((2 : Int), "y")] ∧
    StructDecoder.enumPairStep [] ("x=-1".data) = [] :=
  ⟨((enum_pair_digits_only [] ("y=2".data) ("y".data) ("2".data) (by decide)).1
      (by decide)).trans (by decide),
   (enum_pair_digits_only [] ("x=-1".data) ("x".data) ("-1".data) (by decide)).2.1
      (by decide)⟩

-- ----------------------------------------------------------------------
-- C6: add_schema fixed-point resolves DAGs of schema dependencies
-- ----------------------------------------------------------------------

lemma getAssoc_mem {κ α : Type} [DecidableEq κ] (k : κ) (v : α) :
    ∀ l : List (κ × α), getAssoc k l = some v → (k, v) ∈ l
| [] => by simp [getAssoc]
| (k', v') :: rest => by
  intro h
  by_cases hk : k' = k
  · subst hk
    simp [getAssoc] at h
    simp [h]
  · simp [getAssoc, hk] at h
    exact List.mem_cons_of_mem _ (getAssoc_mem k v rest h)

lemma getAssoc_append_left {κ α : Type} [DecidableEq κ] (k : κ) (l₂ : List (κ × α)) :
    ∀ l : List (κ × α), (getAssoc k l).isSome = true →
      getAssoc k (l ++ l₂) = getAssoc k l
| [] => by intro h; simp [getAssoc] at h
| (k', v') :: rest => by
  intro h
  by_cases hk : k' = k
  · simp [getAssoc, hk]
  · simp [getAssoc, hk] at h ⊢
    exact getAssoc_append_left k l₂ rest h

lemma getAssoc_append_right {κ α : Type} [DecidableEq κ] (k : κ) (l₂ : List (κ × α)) :
    ∀ l : List (κ × α), getAssoc k l = none →
      getAssoc k (l ++ l₂) = getAssoc k l₂
| [] => by intro _; rfl
| (k', v') :: rest => by
  intro h
  by_cases hk : k' = k
  · simp [getAssoc, hk] at h
  · simp [getAssoc, hk] at h ⊢
    exact getAssoc_append_right k l₂ rest h

lemma countP_lt_of_flip {α : Type} (p q : α → Bool) :
    ∀ l : List α, (∀ x ∈ l, q x = true → p x = true) →
      ∀ x₀ ∈ l, p x₀ = true → q x₀ = false →
        l.countP q < l.countP p := by
  intro l
  induction l with
  | nil => intro _ x₀ hx₀; exact absurd hx₀ (List.not_mem_nil x₀)
  | cons a t ih =>
    intro himp x₀ hx₀ hp hq
    have hle : t.countP q ≤ t.countP p :=
      List.countP_mono_left (fun x hx => himp x (List.mem_cons_of_mem a hx))
    rcases List.mem_cons.mp hx₀ with rfl | hx₀t
    · rw [List.countP_cons, List.countP_cons, hp, hq]
      rw [show (if true = true then 1 else 0) = 1 from rfl,
          show (if false = true then 1 else 0) = 0 from rfl]
      omega
    · have hlt := ih (fun x hx => himp x (List.mem_cons_of_mem a hx)) x₀ hx₀t hp hq
      rw [List.countP_cons, List.countP_cons]
      have ha := himp a (List.mem_cons_self a t)
      cases hqa : q a with
      | false =>
        cases hpa : p a <;> simp <;> omega
      | true =>
        rw [ha hqa]
        simp
        omega

lemma StructDecoder.parseTail_ok_type (tok : String) (e : Option (List (Int × String)))
    (ns : List Char) (vs : ValueSchema)
    (h : StructDecoder.parseTail tok e ns = StructDecoder.DeclRest.ok vs) :
    vs.type = tok := by
  simp only [StructDecoder.parseTail] at h
  repeat' split at h
  all_goals cases h <;> rfl

lemma StructDecoder.parseDecl_ok_type (d : String) (tok : String) (vs : ValueSchema)
    (h : StructDecoder.parseDecl d =
        StructDecoder.DeclParse.withType tok (StructDecoder.DeclRest.ok vs)) :
    vs.type = tok := by
  unfold StructDecoder.parseDecl at h
  split at h
  · cases h
  · split at h
    · cases h
    · injection h with h1 h2
      rw [← h1]
      exact StructDecoder.parseTail_ok_type _ _ _ _ h2

lemma valueTypeOfString_isSome (tok : String)
    (h : tok ∈ VALID_TYPE_STRINGS) :
    (valueTypeOfString tok).isSome = true := by
  simp only [VALID_TYPE_STRINGS, List.mem_cons, List.not_mem_nil, or_false] at h
  rcases h with rfl | rfl | rfl | rfl | rfl | rfl | rfl | rfl | rfl | rfl | rfl | rfl | rfl | rfl <;>
    rfl

lemma StructDecoder.collectVS_cases (schemas : List (String × Schema)) :
    ∀ decls : List String, (∀ d ∈ decls, StructDecoder.declOk d = true) →
      (StructDecoder.collectVS schemas decls = some none ∧
        ∃ d ∈ decls, ∃ tok ∈ StructDecoder.refsOfDecl d,
          (getAssoc tok schemas).isNone = true) ∨
      (∃ l, StructDecoder.collectVS schemas decls = some (some l) ∧
        ∀ vs ∈ l, vs.type ∈ VALID_TYPE_STRINGS ∨
          (getAssoc vs.type schemas).isSome = true) := by
  intro decls
  induction decls with
  | nil => exact fun _ => Or.inr ⟨[], rfl, by simp⟩
  | cons d rest ih =>
    intro hok
    have hd : StructDecoder.declOk d = true := hok d (List.mem_cons_self d rest)
    have hrest := ih (fun x hx => hok x (List.mem_cons_of_mem d hx))
    cases hpd : StructDecoder.parseDecl d with
    | excBefore =>
      exfalso
      simp only [StructDecoder.declOk, hpd] at hd
      exact Bool.false_ne_true hd
    | withType tok r =>
      by_cases hdep : tok ∈ VALID_TYPE_STRINGS ∨ (getAssoc tok schemas).isSome = true
      · cases r with
        | excAfter =>
          exfalso
          simp only [StructDecoder.declOk, hpd] at hd
          exact Bool.false_ne_true hd
        | skip =>
          have hcv : StructDecoder.collectVS schemas (d :: rest) =
              StructDecoder.collectVS schemas rest := by
            simp only [StructDecoder.collectVS, hpd]
            rw [if_pos (by simpa using hdep)]
          rcases hrest with ⟨h1, d0, hd0, tok0, htok0, hnone⟩ | ⟨l, hl, hP⟩
          · exact Or.inl ⟨by rw [hcv, h1], d0, List.mem_cons_of_mem d hd0, tok0, htok0, hnone⟩
          · exact Or.inr ⟨l, by rw [hcv, hl], hP⟩
        | ok vs =>
          have hty : vs.type = tok := StructDecoder.parseDecl_ok_type d tok vs hpd
          have hcv : StructDecoder.collectVS schemas (d :: rest) =
              (StructDecoder.collectVS schemas rest).map (Option.map (vs :: ·)) := by
            simp only [StructDecoder.collectVS, hpd]
            rw [if_pos (by simpa using hdep)]
          rcases hrest with ⟨h1, d0, hd0, tok0, htok0, hnone⟩ | ⟨l, hl, hP⟩
          · refine Or.inl ⟨?_, d0, List.mem_cons_of_mem d hd0, tok0, htok0, hnone⟩
            rw [hcv, h1]
            rfl
          · refine Or.inr ⟨vs :: l, by rw [hcv, hl]; rfl, ?_⟩
            intro x hx
            rcases List.mem_cons.mp hx with rfl | hxl
            · rw [hty]; exact hdep
            · exact hP x hxl
      · refine Or.inl ⟨?_, d, List.mem_cons_self d rest, tok, ?_, ?_⟩
        · simp only [StructDecoder.collectVS, hpd]
          rw [if_neg (by simpa using hdep)]
        · simp only [StructDecoder.refsOfDecl, hpd]
          rw [if_neg (fun hmem => hdep (Or.inl hmem))]
          exact List.mem_singleton.mpr rfl
        · have h2 : ¬ (getAssoc tok schemas).isSome = true := fun hs => hdep (Or.inr hs)
          cases hga : getAssoc tok schemas with
          | none => rfl
          | some _ => exact absurd (by rw [hga]; rfl) h2

lemma StructDecoder.layoutStep_isSome (schemas : List (String × Schema))
    (st : Int × Option Int × Option Int) (vs : ValueSchema)
    (h : vs.type ∈ VALID_TYPE_STRINGS ∨ (getAssoc vs.type schemas).isSome = true) :
    (StructDecoder.layoutStep schemas st vs).isSome = true := by
  simp only [StructDecoder.layoutStep]
  by_cases ht : vs.type ∈ VALID_TYPE_STRINGS
  · rw [if_neg (not_not_intro ht)]
    have hvt := valueTypeOfString_isSome vs.type ht
    cases hvtv : valueTypeOfString vs.type with
    | none => rw [hvtv] at hvt; exact absurd hvt (by simp)
    | some vt =>
      cases hw : vs.bitfield_width with
      | none => simp [hvtv]
      | some w => simp [hvtv]
  · have hs : (getAssoc vs.type schemas).isSome = true := h.resolve_left ht
    rw [if_pos ht]
    cases hget : getAssoc vs.type schemas with
    | none => rw [hget] at hs; exact absurd hs (by simp)
    | some child => simp [hget]

lemma StructDecoder.layoutAux_isSome (schemas : List (String × Schema)) :
    ∀ (vss : List ValueSchema) (st : Int × Option Int × Option Int),
      (∀ vs ∈ vss, vs.type ∈ VALID_TYPE_STRINGS ∨
        (getAssoc vs.type schemas).isSome = true) →
      (StructDecoder.layoutAux schemas st vss).isSome = true := by
  intro vss
  induction vss with
  | nil => intro st _; rfl
  | cons vs rest ih =>
    intro st hP
    have h1 := StructDecoder.layoutStep_isSome schemas st vs (hP vs (List.mem_cons_self vs rest))
    cases hstep : StructDecoder.layoutStep schemas st vs with
    | none => rw [hstep] at h1; exact absurd h1 (by simp)
    | some pr =>
      obtain ⟨st', vs'⟩ := pr
      have h2 := ih st' (fun x hx => hP x (List.mem_cons_of_mem vs hx))
      cases hrest2 : StructDecoder.layoutAux schemas st' rest with
      | none => rw [hrest2] at h2; exact absurd h2 (by simp)
      | some r =>
        simp only [StructDecoder.layoutAux, hstep, hrest2, Option.map_some']
        rfl

lemma StructDecoder.compile_schema_cases (schemas : List (String × Schema)) (s : String)
    (hok : StructDecoder.schemaOk s = true) :
    (StructDecoder.compile_schema schemas s = some none ∧
      ∃ tok ∈ StructDecoder.schemaRefs s, (getAssoc tok schemas).isNone = true) ∨
    (∃ sch, StructDecoder.compile_schema schemas s = some (some sch)) := by
  have hdecls : ∀ d ∈ StructDecoder.declStrings s, StructDecoder.declOk d = true := by
    rw [StructDecoder.schemaOk, List.all_eq_true] at hok
    exact fun d hd => hok d hd
  rcases StructDecoder.collectVS_cases schemas (StructDecoder.declStrings s) hdecls with
    ⟨h1, d0, hd0, tok0, htok0, hnone⟩ | ⟨l, hl, hP⟩
  · refine Or.inl ⟨?_, tok0, ?_, hnone⟩
    · simp only [StructDecoder.compile_schema, h1]
    · exact List.mem_flatMap.mpr ⟨d0, hd0, htok0⟩
  · have hlay := StructDecoder.layoutAux_isSome schemas l (0, none, none) hP
    have hlays : (StructDecoder.layout schemas l).isSome = true := by
      unfold StructDecoder.layout
      cases hlayv : StructDecoder.layoutAux schemas (0, none, none) l with
      | none => rw [hlayv] at hlay; exact absurd hlay (by simp)
      | some pr => rfl
    obtain ⟨lr, hlr⟩ := Option.isSome_iff_exists.mp hlays
    obtain ⟨vl, len⟩ := lr
    refine Or.inr ⟨⟨len, vl⟩, ?_⟩
    simp only [StructDecoder.compile_schema, hl, hlr]

lemma StructDecoder.compilePassAux_spec :
    ∀ (strings : List (String × String)) (schemas : List (String × Schema)) (prog : Bool),
      (∀ c ∈ strings, StructDecoder.schemaOk c.2 = true) →
      ∃ schemas' p', StructDecoder.compilePassAux strings schemas prog = some (schemas', p') ∧
        (∀ m v, getAssoc m schemas = some v → getAssoc m schemas' = some v) ∧
        (prog = true → p' = true) ∧
        (p' = false → schemas' = schemas ∧
          ∀ c ∈ strings, (getAssoc c.1 schemas).isNone = true →
            ∃ tok ∈ StructDecoder.schemaRefs c.2, (getAssoc tok schemas).isNone = true) ∧
        (prog = false → p' = true →
          ∃ c ∈ strings, (getAssoc c.1 schemas).isNone = true ∧
            (getAssoc c.1 schemas').isSome = true) := by
  intro strings
  induction strings with
  | nil =>
    intro schemas prog _
    refine ⟨schemas, prog, rfl, fun m v h => h, fun h => h, ?_, ?_⟩
    · intro h; exact ⟨rfl, by simp⟩
    · intro h1 h2; rw [h1] at h2; exact absurd h2 Bool.false_ne_true
  | cons c rest ih =>
    obtain ⟨n, s⟩ := c
    intro schemas prog hok
    have hoktail : ∀ x ∈ rest, StructDecoder.schemaOk x.2 = true :=
      fun x hx => hok x (List.mem_cons_of_mem _ hx)
    by_cases hn : (getAssoc n schemas).isSome = true
    · obtain ⟨schemas', p', hpass, hmono, hpt, hpf, hnew⟩ := ih schemas prog hoktail
      refine ⟨schemas', p', ?_, hmono, hpt, ?_, ?_⟩
      · simp only [StructDecoder.compilePassAux]
        rw [if_pos hn]
        exact hpass
      · intro h
        obtain ⟨he, hsat⟩ := hpf h
        refine ⟨he, ?_⟩
        rintro x hx hxn
        rcases List.mem_cons.mp hx with rfl | hx'
        · have hxn' : getAssoc n schemas = none := Option.isNone_iff_eq_none.mp hxn
          rw [hxn'] at hn
          exact absurd hn (by simp)
        · exact hsat x hx' hxn
      · intro h1 h2
        obtain ⟨x, hx, a, b⟩ := hnew h1 h2
        exact ⟨x, List.mem_cons_of_mem _ hx, a, b⟩
    · have hsch : StructDecoder.schemaOk s = true := hok (n, s) (List.mem_cons_self _ rest)
      rcases StructDecoder.compile_schema_cases schemas s hsch with
        ⟨hcomp, tok0, htok0, hnone0⟩ | ⟨sch, hcomp⟩
      · obtain ⟨schemas', p', hpass, hmono, hpt, hpf, hnew⟩ := ih schemas prog hoktail
        refine ⟨schemas', p', ?_, hmono, hpt, ?_, ?_⟩
        · simp only [StructDecoder.compilePassAux]
          rw [if_neg hn, hcomp]
          exact hpass
        · intro h
          obtain ⟨he, hsat⟩ := hpf h
          refine ⟨he, ?_⟩
          rintro x hx hxn
          rcases List.mem_cons.mp hx with rfl | hx'
          · exact ⟨tok0, htok0, hnone0⟩
          · exact hsat x hx' hxn
        · intro h1 h2
          obtain ⟨x, hx, a, b⟩ := hnew h1 h2
          exact ⟨x, List.mem_cons_of_mem _ hx, a, b⟩
      · obtain ⟨schemas', p', hpass, hmono, hpt, hpf, hnew⟩ :=
          ih (setAssoc n sch schemas) true hoktail
        have hp' : p' = true := hpt rfl
        have hnnone : getAssoc n schemas = none := by
          cases hg : getAssoc n schemas with
          | none => rfl
          | some v => exact absurd (by rw [hg]; rfl) hn
        refine ⟨schemas', p', ?_, ?_, fun _ => hp', ?_, ?_⟩
        · simp only [StructDecoder.compilePassAux]
          rw [if_neg hn, hcomp]
          exact hpass
        · intro m v hm
          have hmn : m ≠ n := by
            rintro rfl
            rw [hm] at hnnone
            cases hnnone
          refine hmono m v ?_
          rw [getAssoc_setAssoc_ne n m sch hmn schemas]
          exact hm
        · intro h
          rw [h] at hp'
          exact absurd hp' Bool.false_ne_true
        · intro _ _
          refine ⟨(n, s), List.mem_cons_self _ rest, ?_, ?_⟩
          · show (getAssoc n schemas).isNone = true
            rw [hnnone]; rfl
          · show (getAssoc n schemas').isSome = true
            have hms := hmono n sch (getAssoc_setAssoc_self n sch schemas)
            rw [hms]; rfl

lemma StructDecoder.compileLoop_spec :
    ∀ (fuel : Nat) (strings : List (String × String)) (schemas : List (String × Schema)),
      (∀ c ∈ strings, StructDecoder.schemaOk c.2 = true) →
      strings.countP (fun c => (getAssoc c.1 schemas).isNone) < fuel →
      ∃ schemas', StructDecoder.compileLoop fuel strings schemas = some schemas' ∧
        (∀ m v, getAssoc m schemas = some v → getAssoc m schemas' = some v) ∧
        ∀ c ∈ strings, (getAssoc c.1 schemas').isNone = true →
          ∃ tok ∈ StructDecoder.schemaRefs c.2, (getAssoc tok schemas').isNone = true := by
  intro fuel
  induction fuel with
  | zero => intro strings schemas _ h; exact absurd h (Nat.not_lt_zero _)
  | succ f ih =>
    intro strings schemas hok hcount
    obtain ⟨schemas', p', hpass, hmono, _, hpf, hnew⟩ :=
      StructDecoder.compilePassAux_spec strings schemas false hok
    cases hp' : p' with
    | false =>
      obtain ⟨heq, hsat⟩ := hpf hp'
      rw [hp'] at hpass
      refine ⟨schemas', ?_, ?_, ?_⟩
      · simp only [StructDecoder.compileLoop, hpass]
      · rw [heq]; exact fun m v h => h
      · rw [heq]; exact hsat
    | true =>
      rw [hp'] at hpass
      obtain ⟨c0, hc0, ha, hb⟩ := hnew rfl hp'
      have hpoint : ∀ x ∈ strings, (getAssoc x.1 schemas').isNone = true →
          (getAssoc x.1 schemas).isNone = true := by
        intro x _ hq
        cases hg : getAssoc x.1 schemas with
        | none => rfl
        | some v =>
          rw [hmono x.1 v hg] at hq
          exact absurd hq (by simp)
      have hq0 : (getAssoc c0.1 schemas').isNone = false := by
        cases he : getAssoc c0.1 schemas' with
        | none => rw [he] at hb; exact absurd hb (by simp)
        | some v => rfl
      have hlt : strings.countP (fun c => (getAssoc c.1 schemas').isNone) <
          strings.countP (fun c => (getAssoc c.1 schemas).isNone) :=
        countP_lt_of_flip _ _ strings hpoint c0 hc0 ha hq0
      have hcount' : strings.countP (fun c => (getAssoc c.1 schemas').isNone) < f := by omega
      obtain ⟨schemas'', hloop, hmono2, hsat2⟩ := ih strings schemas' hok hcount'
      refine ⟨schemas'', ?_, fun m v h => hmono2 m v (hmono m v h), hsat2⟩
      simp only [StructDecoder.compileLoop, hpass]
      exact hloop

lemma StructDecoder.add_schema_spec (name s : String) (st : StructDecoder)
    (hok : ∀ c ∈ st.schema_strings, StructDecoder.schemaOk c.2 = true)
    (hs : StructDecoder.schemaOk s = true)
    (hsat : ∀ c ∈ st.schema_strings, (getAssoc c.1 st.schemas).isNone = true →
      ∃ tok ∈ StructDecoder.schemaRefs c.2, (getAssoc tok st.schemas).isNone = true) :
    ∃ st', StructDecoder.add_schema name s st = some st' ∧
      (∀ c ∈ st'.schema_strings, c ∈ st.schema_strings ∨ c = (name, s)) ∧
      (∀ c ∈ st.schema_strings, c ∈ st'.schema_strings) ∧
      (∀ k, (getAssoc k st.schema_strings).isSome = true →
        (getAssoc k st'.schema_strings).isSome = true) ∧
      (getAssoc name st'.schema_strings).isSome = true ∧
      (∀ c ∈ st'.schema_strings, (getAssoc c.1 st'.schemas).isNone = true →
        ∃ tok ∈ StructDecoder.schemaRefs c.2, (getAssoc tok st'.schemas).isNone = true) := by
  by_cases hpres : (getAssoc name st.schema_strings).isSome = true
  · refine ⟨st, ?_, fun c hc => Or.inl hc, fun c hc => hc, fun k h => h, hpres, hsat⟩
    simp only [StructDecoder.add_schema]
    rw [if_pos hpres]
  · have hnone : getAssoc name st.schema_strings = none := by
      cases hg : getAssoc name st.schema_strings with
      | none => rfl
      | some v => exact absurd (by rw [hg]; rfl) hpres
    have hok' : ∀ c ∈ st.schema_strings ++ [(name, s)], StructDecoder.schemaOk c.2 = true := by
      intro c hc
      rcases List.mem_append.mp hc with h | h
      · exact hok c h
      · rw [List.mem_singleton.mp h]
        exact hs
    have hcount : (st.schema_strings ++ [(name, s)]).countP
        (fun c => (getAssoc c.1 st.schemas).isNone) <
        (st.schema_strings ++ [(name, s)]).length + 1 :=
      Nat.lt_succ_of_le (List.countP_le_length _)
    obtain ⟨schemas', hloop, _, hsat'⟩ :=
      StructDecoder.compileLoop_spec ((st.schema_strings ++ [(name, s)]).length + 1)
        (st.schema_strings ++ [(name, s)]) st.schemas hok' hcount
    refine ⟨⟨st.schema_strings ++ [(name, s)], schemas'⟩, ?_, ?_, ?_, ?_, ?_, hsat'⟩
    · simp only [StructDecoder.add_schema]
      rw [if_neg hpres]
      rw [hloop]
      rfl
    · intro c hc
      rcases List.mem_append.mp hc with h | h
      · exact Or.inl h
      · exact Or.inr (List.mem_singleton.mp h)
    · exact fun c hc => List.mem_append_left _ hc
    · intro k h
      show (getAssoc k (st.schema_strings ++ [(name, s)])).isSome = true
      rw [getAssoc_append_left k _ st.schema_strings h]
      exact h
    · show (getAssoc name (st.schema_strings ++ [(name, s)])).isSome = true
      rw [getAssoc_append_right name _ st.schema_strings hnone]
      simp [getAssoc]

lemma StructDecoder.addSchemaAll_spec :
    ∀ (calls : List (String × String)) (st : StructDecoder),
      (∀ c ∈ calls, StructDecoder.schemaOk c.2 = true) →
      (∀ c ∈ st.schema_strings, StructDecoder.schemaOk c.2 = true) →
      (∀ c ∈ st.schema_strings, (getAssoc c.1 st.schemas).isNone = true →
        ∃ tok ∈ StructDecoder.schemaRefs c.2, (getAssoc tok st.schemas).isNone = true) →
      ∃ st', StructDecoder.addSchemaAll calls st = some st' ∧
        (∀ c ∈ st'.schema_strings, c ∈ st.schema_strings ∨ c ∈ calls) ∧
        (∀ k, (getAssoc k st.schema_strings).isSome = true →
          (getAssoc k st'.schema_strings).isSome = true) ∧
        (∀ c ∈ calls, (getAssoc c.1 st'.schema_strings).isSome = true) ∧
        (∀ c ∈ st'.schema_strings, (getAssoc c.1 st'.schemas).isNone = true →
          ∃ tok ∈ StructDecoder.schemaRefs c.2, (getAssoc tok st'.schemas).isNone = true) := by
  intro calls
  induction calls with
  | nil =>
    intro st _ _ hsat
    exact ⟨st, rfl, fun c hc => Or.inl hc, fun k h => h, by simp, hsat⟩
  | cons c calls ih =>
    intro st hok hokst hsat
    obtain ⟨st1, hadd, hfrom1, hkeep1, hpres1, hkey1, hsat1⟩ :=
      StructDecoder.add_schema_spec c.1 c.2 st hokst
        (hok c (List.mem_cons_self c calls)) hsat
    have hokst1 : ∀ x ∈ st1.schema_strings, StructDecoder.schemaOk x.2 = true := by
      intro x hx
      rcases hfrom1 x hx with h | h
      · exact hokst x h
      · rw [h]
        exact hok c (List.mem_cons_self c calls)
    obtain ⟨st', hfold, hfrom', hpres', hkeys', hsat'⟩ :=
      ih st1 (fun x hx => hok x (List.mem_cons_of_mem c hx)) hokst1 hsat1
    have hrun : StructDecoder.addSchemaAll (c :: calls) st = some st' := by
      have hstep : StructDecoder.addSchemaAll (c :: calls) st =
          (StructDecoder.add_schema c.1 c.2 st).bind
            (fun s1 => StructDecoder.addSchemaAll calls s1) := rfl
      rw [hstep, hadd]
      exact hfold
    refine ⟨st', hrun, ?_, ?_, ?_, hsat'⟩
    · intro x hx
      rcases hfrom' x hx with h | h
      · rcases hfrom1 x h with h2 | h2
        · exact Or.inl h2
        · exact Or.inr (by rw [h2]; exact List.mem_cons_self c calls)
      · exact Or.inr (List.mem_cons_of_mem c h)
    · exact fun k hk => hpres' k (hpres1 k hk)
    · intro x hx
      rcases List.mem_cons.mp hx with rfl | hx'
      · exact hpres' x.1 hkey1
      · exact hkeys' x hx'

/-- **C6.** For a sequence of `add_schema(name, text)` calls whose schema
texts parse without raising, whose inter-schema references all name added
schemas, and whose reference graph is a DAG (witnessed by a rank function
that strictly decreases from a schema to each schema it references),
every call returns normally and after the last call every added schema
name is compiled (present in `schemas`): the per-call fixed-point
compile loop resolves arbitrary DAGs of dependencies across the call
chain, since compiling one schema succeeds exactly when all the
child schemas it references are already compiled. -/
theorem add_schema_dag_compiles (calls : List (String × String)) (rank : String → Nat)
    (hok : ∀ c ∈ calls, StructDecoder.schemaOk c.2 = true)
    (hclosed : ∀ c ∈ calls, ∀ tok ∈ StructDecoder.schemaRefs c.2, tok ∈ calls.map Prod.fst)
    (hdag : ∀ c ∈ calls, ∀ tok ∈ StructDecoder.schemaRefs c.2, rank tok < rank c.1) :
    ∃ st, StructDecoder.addSchemaAll calls {} = some st ∧
      ∀ c ∈ calls, (getAssoc c.1 st.schemas).isSome = true := by
  obtain ⟨st, hrun, hfrom, _, hkeys, hsat⟩ :=
    StructDecoder.addSchemaAll_spec calls {} hok (by intro c hc; cases hc) (by intro c hc; cases hc)
  have main : ∀ r : Nat, ∀ c ∈ st.schema_strings, rank c.1 < r →
      (getAssoc c.1 st.schemas).isSome = true := by
    intro r
    induction r with
    | zero => intro c _ hlt; exact absurd hlt (Nat.not_lt_zero _)
    | succ r ih =>
      intro c hc hlt
      by_contra hnot
      have hnone : (getAssoc c.1 st.schemas).isNone = true := by
        cases hg : getAssoc c.1 st.schemas with
        | none => rfl
        | some v => exact absurd (by rw [hg]; rfl) hnot
      obtain ⟨tok, htok, htoknone⟩ := hsat c hc hnone
      have hcall : c ∈ calls := by
        rcases hfrom c hc with h | h
        · cases h
        · exact h
      have hrank : rank tok < rank c.1 := hdag c hcall tok htok
      have htokname : tok ∈ calls.map Prod.fst := hclosed c hcall tok htok
      obtain ⟨c2, hc2, hfst⟩ := List.mem_map.mp htokname
      obtain ⟨s2, hs2⟩ := Option.isSome_iff_exists.mp (hkeys c2 hc2)
      have hpair : (c2.1, s2) ∈ st.schema_strings := getAssoc_mem c2.1 s2 st.schema_strings hs2
      have hcomp := ih (c2.1, s2) hpair (by show rank c2.1 < r; rw [hfst]; omega)
      have hcomp' : (getAssoc tok st.schemas).isSome = true := by
        rw [← hfst]; exact hcomp
      rw [Option.isNone_iff_eq_none.mp htoknone] at hcomp'
      exact absurd hcomp' (by simp)
  refine ⟨st, hrun, ?_⟩
  intro c hc
  obtain ⟨s2, hs2⟩ := Option.isSome_iff_exists.mp (hkeys c hc)
  have hpair : (c.1, s2) ∈ st.schema_strings := getAssoc_mem c.1 s2 st.schema_strings hs2
  exact main (rank c.1 + 1) (c.1, s2) hpair (Nat.lt_succ_self _)

/-- Concrete run for C6: `Outer` references `Inner` and arrives first,
so its compilation is deferred until `Inner` is registered; after the
second call both schemas are compiled. -/
theorem add_schema_dag_compiles_witness :
    ∃ st, StructDecoder.addSchemaAll
        [("Outer", "Inner p; int8 q;"), ("Inner", "int16 x;")] {} = some st ∧
      ∀ c ∈ [("Outer", "Inner p; int8 q;"), ("Inner", "int16 x;")],
        (getAssoc c.1 st.schemas).isSome = true :=
  add_schema_dag_compiles [("Outer", "Inner p; int8 q;"), ("Inner", "int16 x;")]
    (fun n => if n = "Inner" then 0 else 1)
    (by decide) (by decide) (by decide)

end LogAnalyzer
